import Mathlib

/-!
Verification of the cursor-claude-connector proxy (TypeScript sources) via a
shallow embedding in Lean 4.

Embedded components:
- the thinking-block cache key and injection (src/src/utils/thinking-cache.ts,
  plus the InjectResult record used by the request pipeline);
- the model-variant resolver and the thinking-downgrade slice of the request
  pipeline (src/unnamed/part_000);
- the streaming Anthropic-to-OpenAI converter
  (src/src/utils/anthropic-to-openai-converter.ts).

Modelling conventions:
- JavaScript strings are modelled by Lean String / List Char; character codes
  are Unicode scalar values (the programs under verification only ever hash or
  compare BMP text, where these agree with UTF-16 code units).
- JavaScript wall-clock values (Date.now()) that only feed cosmetic fields are
  replaced by fixed placeholder constants; the chunk fields `object` (a
  constant) and `created` (wall clock) are omitted from the chunk model.
- JSON.parse together with payload extraction is an external library facility;
  the stream converter is parameterised by an abstract parse function
  `parse : List Char → Option AnthropicStreamEvent` (`none` models a
  JSON.parse throw, which in the source happens before any state mutation).
  The one handler throw reachable with these payloads — `message_start`
  whose `message` lacks `id`, where `data.message.id.replace` throws after
  `updateMetrics` has already mutated the counters — is modelled explicitly:
  `transformToOpenAI` returns `none` and `handleEvent` keeps the metrics
  mutation while suppressing the line's output, exactly as the per-line
  try/catch does.
-/

/-! ## JavaScript string helpers -/

/-- Whitespace as matched by the JavaScript `\s` class and `trim()`,
restricted to the ASCII range (the sources only normalise ASCII text). -/
def jsIsSpace (c : Char) : Bool :=
  c = ' ' ∨ c = '\t' ∨ c = '\n' ∨ c = '\r' ∨ c = '\x0b' ∨ c = '\x0c'

/-- `trim()` on a character list: drop whitespace from both ends. -/
def jsTrimList (cs : List Char) : List Char :=
  ((cs.dropWhile jsIsSpace).reverse.dropWhile jsIsSpace).reverse

/-- One step of `replace(/\s+/g, ' ')`: collapse whitespace runs to a single
space.  The flag records whether the previous character was whitespace. -/
def collapseWsAux : Bool → List Char → List Char
  | _, [] => []
  | prev, c :: rest =>
    if jsIsSpace c then
      if prev then collapseWsAux true rest else ' ' :: collapseWsAux true rest
    else c :: collapseWsAux false rest

/-- `replace(/\s+/g, ' ')` over a character list. -/
def collapseWs (cs : List Char) : List Char := collapseWsAux false cs

/-- `toLowerCase()` for one character, on the ASCII range (the model strings
and variant keys in the source are ASCII). -/
def jsLowerChar (c : Char) : Char :=
  if 'A' ≤ c ∧ c ≤ 'Z' then Char.ofNat (c.toNat + 32) else c

/-- `toLowerCase()` over a string. -/
def jsLowerStr (s : String) : String := ⟨s.data.map jsLowerChar⟩

/-- `trim()` over a string. -/
def jsTrimStr (s : String) : String := ⟨jsTrimList s.data⟩

/-- `model.toLowerCase().trim()`, the normalisation used by the resolver. -/
def jsNormalize (s : String) : String := jsTrimStr (jsLowerStr s)

/-- `a.startsWith(b)` over strings. -/
def strStartsWith (s pre : String) : Bool := pre.data.isPrefixOf s.data

/-- `s.substring(n)` over strings (drop the first `n` units). -/
def strDropN (s : String) (n : Nat) : String := ⟨s.data.drop n⟩

/-- `s.length` of a JavaScript string (code units; scalar count here). -/
def strLen (s : String) : Nat := s.data.length

/-- `haystack.includes(needle)` over character lists. -/
def listContainsSub (pat : List Char) : List Char → Bool
  | [] => pat.isEmpty
  | c :: rest => pat.isPrefixOf (c :: rest) || listContainsSub pat rest

/-- `s.includes(pat)` over strings. -/
def strContainsSub (s pat : String) : Bool := listContainsSub pat.data s.data

/-- JavaScript truthiness of an optional string (`undefined`/`null`/`""` are
falsy). -/
def truthyStr : Option String → Bool
  | some s => decide (s ≠ "")
  | none => false

/-- `o || dflt` where `o` is an optional (possibly empty) string. -/
def jsOrStr (o : Option String) (dflt : String) : String :=
  match o with
  | some s => if s = "" then dflt else s
  | none => dflt

/-- `a || b` on plain strings (empty string is falsy). -/
def strOr (a b : String) : String := if a = "" then b else a

/-- `x.split(sep)` over character lists: `n` separators yield `n + 1` pieces,
including empty ones. -/
def splitOnChar (sep : Char) : List Char → List (List Char)
  | [] => [[]]
  | c :: rest =>
    match splitOnChar sep rest with
    | [] => [[]]
    | l :: ls => if c = sep then [] :: l :: ls else (c :: l) :: ls

/-- `s.split(',')` over strings. -/
def splitComma (s : String) : List String :=
  (splitOnChar ',' s.data).map (fun l => ⟨l⟩)

/-- `parts.join(',')` over strings. -/
def joinComma : List String → String
  | [] => ""
  | [s] => s
  | s :: rest => s ++ "," ++ joinComma rest

/-! ## 32-bit arithmetic for the cache-key hash -/

/-- JavaScript `ToInt32`: reduce an integer to the signed 32-bit range. -/
def toInt32 (x : Int) : Int :=
  let r := x % 4294967296
  if r < 2147483648 then r else r - 4294967296

/-- One step of the cache-key hash: `hash = (hash << 5) - hash + char` then
`hash = hash & hash` (coercion back to a 32-bit integer). -/
def hashStep (h : Int) (c : Char) : Int :=
  toInt32 (toInt32 (h * 32) - h + c.toNat)

/-- The rolling 32-bit hash over a normalised character list. -/
def hash32 (cs : List Char) : Int := cs.foldl hashStep 0

/-! ## Thinking-cache data model (src/src/utils/thinking-cache.ts) -/

/-- A content block of the cache domain.  `tool_use.input` is modelled as an
optional flat JSON object with integer values (`none` stands for a missing /
falsy `input`); the key-serialisation under test only sorts top-level keys.
`tool_result.content` is modelled in its string form.  Keys are assumed to
need no JSON string escaping (the serialiser below emits them verbatim). -/
inductive ContentBlock where
  | text (text : String)
  | thinking (thinking : String) (signature : String)
  | redactedThinking (data : String)
  | toolUse (id : String) (name : String) (input : Option (List (String × Int)))
  | toolResult (toolUseId : String) (content : String)
deriving DecidableEq, Repr

/-- Whether a block is a thinking or redacted_thinking block. -/
def ContentBlock.isThinkingKind : ContentBlock → Bool
  | .thinking _ _ => true
  | .redactedThinking _ => true
  | _ => false

/-- `string | ContentBlock[]` message content. -/
inductive MsgContent where
  | str (s : String)
  | blocks (bs : List ContentBlock)
deriving DecidableEq, Repr

/-- A conversation message (`role` kept as a raw string as in the JSON). -/
structure AnthropicMessage where
  role : String
  content : MsgContent
deriving DecidableEq, Repr

/-- Lexicographic code-unit comparison, the default `Array.sort()` order on
strings. -/
def listLexLe : List Char → List Char → Bool
  | [], _ => true
  | _ :: _, [] => false
  | a :: as, b :: bs =>
    if a.toNat < b.toNat then true
    else if b.toNat < a.toNat then false
    else listLexLe as bs

/-- Code-unit comparison on strings. -/
def keyLe (a b : String) : Bool := listLexLe a.data b.data

/-- Insertion sort of JSON object keys, as `Object.keys(x).sort()` orders
them (lexicographic code-unit order). -/
def insertKeySorted (p : String × Int) : List (String × Int) → List (String × Int)
  | [] => [p]
  | q :: rest => if keyLe p.1 q.1 then p :: q :: rest else q :: insertKeySorted p rest

/-- Sort a flat object's entries by key. -/
def sortByKey : List (String × Int) → List (String × Int)
  | [] => []
  | p :: rest => insertKeySorted p (sortByKey rest)

/-- Serialise the entries of a flat JSON object, already ordered. -/
def jsonEntries : List (String × Int) → String
  | [] => ""
  | [(k, v)] => "\"" ++ k ++ "\":" ++ toString v
  | (k, v) :: rest => "\"" ++ k ++ "\":" ++ toString v ++ "," ++ jsonEntries rest

/-- `JSON.stringify(input, Object.keys(input).sort())`: with an array
replacer, properties are emitted in replacer order, i.e. sorted by key. -/
def stableStringify (entries : List (String × Int)) : String :=
  "\x7b" ++ jsonEntries (sortByKey entries) ++ "\x7d"

/-- The string contributed to the cache key by one content block
(thinking blocks contribute nothing and are skipped by the caller). -/
def cacheKeyPart : ContentBlock → String
  | .text t => t
  | .toolUse _ name input =>
      "tool:" ++ name ++ ":" ++
        (match input with
         | some entries => stableStringify entries
         | none => "\x7b\x7d")
  | .toolResult toolUseId content => "result:" ++ toolUseId ++ ":" ++ content
  | .thinking _ _ => ""
  | .redactedThinking _ => ""

/-- `parts.join('|')`. -/
def joinBar : List String → String
  | [] => ""
  | [s] => s
  | s :: rest => s ++ "|" ++ joinBar rest

/-- The `parts` list of `generateCacheKey`: every non-thinking block in
order, mapped to its serialised form. -/
def cacheKeyParts (bs : List ContentBlock) : List String :=
  (bs.filter (fun b => !b.isThinkingKind)).map cacheKeyPart

/-- `generateCacheKey` (thinking-cache.ts lines 83-126): extract the
non-thinking text, normalise whitespace, hash, and build
`v2:<|hash|>:<length>`. -/
def generateCacheKey (content : MsgContent) : String :=
  let textContent : String :=
    match content with
    | .str s => s
    | .blocks bs => joinBar (cacheKeyParts bs)
  let normalized : List Char := jsTrimList (collapseWs textContent.data)
  "v2:" ++ toString (hash32 normalized).natAbs ++ ":" ++ toString normalized.length

/-! ## Thinking-block injection -/

/-- Whether a block list already contains a thinking block
(`content.some(block => block.type === 'thinking' || 'redacted_thinking')`). -/
def hasThinkingBlock (bs : List ContentBlock) : Bool :=
  bs.any ContentBlock.isThinkingKind

/-- Whether a message content carries a thinking block (string content
never does). -/
def contentHasThinking : MsgContent → Bool
  | .str _ => false
  | .blocks bs => hasThinkingBlock bs

/-- Result record of injection.  Modelled from the spec: the revision of
`injectCachedThinkingBlocks` returning
`{injected_count, missing_count, can_use_thinking}` is consumed by the
request pipeline (src/unnamed/part_000, `InjectResult`) but its source file
is not under src/; the per-message rewriting below follows the
`injectCachedThinkingBlocks` that is (thinking-cache.ts lines 254-293), and
per the spec a lookup miss on an assistant message without a thinking block
counts as missing, with `can_use_thinking` true iff no assistant message
remains without a thinking block (implemented as `missing_count == 0`;
the equivalence with the spec's phrasing is proved below). -/
structure InjectResult where
  injectedCount : Nat
  missingCount : Nat
  canUseThinking : Bool
deriving DecidableEq, Repr

/-- Transformation of a single message by injection.  The cache is modelled
as a pure key-indexed lookup (memory tier and Redis tier collapsed into one
map, as `getCachedThinkingBlock` consults them through the same key).
Returns the rewritten message and the (0/1) injected and missing counts it
contributes. -/
def injectMsg (cache : String → Option ContentBlock) (msg : AnthropicMessage) :
    AnthropicMessage × Nat × Nat :=
  if msg.role ≠ "assistant" then (msg, 0, 0)
  else
    match msg.content with
    | .blocks bs =>
      if hasThinkingBlock bs then (msg, 0, 0)
      else
        match cache (generateCacheKey (.blocks bs)) with
        | some cached => ({ msg with content := .blocks (cached :: bs) }, 1, 0)
        | none => (msg, 0, 1)
    | .str s =>
      match cache (generateCacheKey (.str s)) with
      | some cached =>
          ({ msg with content := .blocks [cached, .text s] }, 1, 0)
      | none => (msg, 0, 1)

/-- `injectCachedThinkingBlocks(messages)`: rewrite each message in order
and report `{injectedCount, missingCount, canUseThinking}`. -/
def injectCachedThinkingBlocks (cache : String → Option ContentBlock)
    (messages : List AnthropicMessage) : List AnthropicMessage × InjectResult :=
  let outcomes := messages.map (injectMsg cache)
  let injected := (outcomes.map (fun o => o.2.1)).sum
  let missing := (outcomes.map (fun o => o.2.2)).sum
  (outcomes.map (fun o => o.1), ⟨injected, missing, missing == 0⟩)

/-! ## Model-variant resolver (src/unnamed/part_000 lines 835-938) -/

/-- `{model, maxTokens, thinking}`; `thinking` holds the `budget_tokens`
when enabled. -/
structure ModelVariantConfig where
  model : String
  maxTokens : Nat
  thinking : Option Nat
deriving DecidableEq, Repr

/-- `THINKING_CONFIG = { type: 'enabled', budget_tokens: 32000 }`. -/
def THINKING_CONFIG : Option Nat := some 32000

/-- The `MODEL_VARIANTS` table, in source order. -/
def MODEL_VARIANTS : List (String × ModelVariantConfig) :=
  [ ("claude-4-opus-high-thinking", ⟨"claude-opus-4-5", 64000, THINKING_CONFIG⟩),
    ("claude-4-opus-high", ⟨"claude-opus-4-5", 32000, none⟩),
    ("claude-4-sonnet-high-thinking", ⟨"claude-sonnet-4-5", 64000, THINKING_CONFIG⟩),
    ("claude-4-sonnet-high", ⟨"claude-sonnet-4-5", 32000, none⟩),
    ("claude-4.5-opus-high-thinking", ⟨"claude-opus-4-5", 64000, THINKING_CONFIG⟩),
    ("claude-4.5-opus-high", ⟨"claude-opus-4-5", 32000, none⟩),
    ("claude-4.5-sonnet-high-thinking", ⟨"claude-sonnet-4-5", 64000, THINKING_CONFIG⟩),
    ("claude-4.5-sonnet-high", ⟨"claude-sonnet-4-5", 32000, none⟩) ]

/-- The resolver's return value: the variant config plus the unmodified
client string. -/
structure ResolvedVariant where
  model : String
  maxTokens : Nat
  thinking : Option Nat
  originalModel : String
deriving DecidableEq, Repr

/-- `resolveModelVariant` (part_000 lines 892-938): case-insensitive table
lookup, then the thinking heuristic, then passthrough with defaults. -/
def resolveModelVariant (model : String) : ResolvedVariant :=
  let normalizedModel := jsNormalize model
  match MODEL_VARIANTS.find? (fun e => jsLowerStr e.1 == normalizedModel) with
  | some (_, config) => ⟨config.model, config.maxTokens, config.thinking, model⟩
  | none =>
    if strContainsSub normalizedModel "thinking" then
      let baseModel :=
        if strContainsSub normalizedModel "opus" then "claude-opus-4-5"
        else if strContainsSub normalizedModel "haiku" then "claude-haiku-4-5"
        else "claude-sonnet-4-5"
      ⟨baseModel, 64000, THINKING_CONFIG, model⟩
    else if strStartsWith normalizedModel "claude-" then
      ⟨model, 8192, none, model⟩
    else
      ⟨model, 8192, none, model⟩

/-! ## Request-pipeline slice: thinking setup and downgrade
(src/unnamed/part_000 lines 1093-1173) -/

/-- The whitelisted upstream-body fields the downgrade logic touches
(`max_tokens`, `top_p`, … are independent of this slice and omitted).
`thinking` holds `budget_tokens` when present; temperatures are rationals. -/
structure AnthropicBodySlice where
  model : String
  messages : List AnthropicMessage
  temperature : Option ℚ
  thinking : Option Nat
deriving DecidableEq, Repr

/-- What the pipeline is about to dispatch upstream: the body slice, the
`anthropic-beta` header value, and the `thinkingEnabled` flag. -/
structure DispatchPlan where
  body : AnthropicBodySlice
  anthropicBeta : String
  thinkingEnabled : Bool
deriving DecidableEq, Repr

/-- The always-present beta features. -/
def baseBetaFeatures : List String :=
  ["oauth-2025-04-20", "fine-grained-tool-streaming-2025-05-14",
   "prompt-caching-2024-07-31"]

/-- The thinking-relevant slice of `messagesFn`: resolve the variant, build
the beta header, set `thinking` and force `temperature = 1` when the variant
enables thinking, run injection when messages are non-empty, and downgrade
(drop `thinking`, restore the client temperature, strip the
interleaved-thinking beta) when injection reports that thinking cannot be
used. -/
def buildDispatchPlan (cache : String → Option ContentBlock) (model : String)
    (clientTemperature : Option ℚ) (messages : List AnthropicMessage) :
    DispatchPlan :=
  let variant := resolveModelVariant model
  let betaFeatures :=
    baseBetaFeatures ++
      (if variant.thinking.isSome then ["interleaved-thinking-2025-05-14"] else [])
  let beta0 := joinComma betaFeatures
  let temp0 := if variant.thinking.isSome then some 1 else clientTemperature
  let body0 : AnthropicBodySlice :=
    ⟨variant.model, messages, temp0, variant.thinking⟩
  if messages ≠ [] then
    let injected := injectCachedThinkingBlocks cache messages
    let body1 := { body0 with messages := injected.1 }
    if variant.thinking.isSome ∧ injected.2.canUseThinking = false then
      ⟨{ body1 with thinking := none, temperature := clientTemperature },
       joinComma ((splitComma beta0).filter
         (fun h => !strContainsSub h "interleaved-thinking")),
       false⟩
    else ⟨body1, beta0, variant.thinking.isSome⟩
  else ⟨body0, beta0, variant.thinking.isSome⟩

/-! ## Stream converter data model
(src/src/utils/anthropic-to-openai-converter.ts) -/

/-- Usage payload of an upstream event.  The token counters are required
numbers in the source's interface; the cache counters may be absent. -/
structure UsagePayload where
  input_tokens : Nat
  output_tokens : Nat
  cache_creation_input_tokens : Option Nat
  cache_read_input_tokens : Option Nat
deriving DecidableEq, Repr

/-- `message` payload of an upstream event.  `id` and `model` are declared
required in the source's TypeScript interface but the JSON may omit them,
so both are optional here: a missing `id` makes `transformToOpenAI` throw
on `data.message.id.replace` (after `updateMetrics` has already run; see
`handleEvent`), and a missing `model` is falsy in every guard that reads
it. -/
structure MessagePayload where
  id : Option String
  model : Option String
  usage : Option UsagePayload
  stop_reason : Option String
deriving DecidableEq, Repr

/-- `content_block` payload of an upstream event.  `type` is the block
discriminator string. -/
structure ContentBlockPayload where
  type : String
  id : Option String
  name : Option String
  text : Option String
  thinking : Option String
  signature : Option String
deriving DecidableEq, Repr

/-- `delta` payload of an upstream event. -/
structure DeltaPayload where
  text : Option String
  partial_json : Option String
  stop_reason : Option String
  thinking : Option String
  signature : Option String
deriving DecidableEq, Repr

/-- A parsed upstream SSE envelope. -/
structure AnthropicStreamEvent where
  type : String
  message : Option MessagePayload
  content_block : Option ContentBlockPayload
  delta : Option DeltaPayload
  index : Option Nat
  model : Option String
  stop_reason : Option String
  signature : Option String
  usage : Option UsagePayload
deriving DecidableEq, Repr

/-- Per-tool-call tracker `{id, name, arguments}`. -/
structure ToolCallTracker where
  id : String
  name : String
  arguments : String
deriving DecidableEq, Repr

/-- `metricsData` of the converter state. -/
structure MetricsData where
  model : String
  stop_reason : Option String
  input_tokens : Nat
  output_tokens : Nat
  cache_creation_input_tokens : Nat
  cache_read_input_tokens : Nat
  messageId : Option String
  openAIId : Option String
deriving DecidableEq, Repr

/-- In-progress thinking block. -/
structure ThinkingBlockData where
  thinking : String
  signature : String
deriving DecidableEq, Repr

/-- `Map.get` over the association-list model of `toolCallsTracker`. -/
def mapGet (k : Nat) : List (Nat × ToolCallTracker) → Option ToolCallTracker
  | [] => none
  | (k', v) :: rest => if k' = k then some v else mapGet k rest

/-- `Map.set` over the association-list model (replace in place, else
append, preserving insertion order like a JavaScript Map). -/
def mapSet (k : Nat) (v : ToolCallTracker) :
    List (Nat × ToolCallTracker) → List (Nat × ToolCallTracker)
  | [] => [(k, v)]
  | (k', v') :: rest =>
    if k' = k then (k, v) :: rest else (k', v') :: mapSet k v rest

/-- The event-dispatch part of the converter state: every field of
`ConverterState` except the SSE line buffer, which the dispatch never
touches. -/
structure ConvCore where
  toolCallsTracker : List (Nat × ToolCallTracker)
  metricsData : MetricsData
  thinkingBlock : Option ThinkingBlockData
  accumulatedText : String
  inThinkingBlock : Bool
  originalModel : Option String
deriving DecidableEq, Repr

/-- The full converter state: dispatch state plus the line buffer. -/
structure ConverterState where
  core : ConvCore
  lineBuffer : List Char
deriving DecidableEq, Repr

/-- `createConverterState(originalModel?)`. -/
def createConverterState (originalModel : Option String) : ConverterState :=
  { core :=
      { toolCallsTracker := [],
        metricsData :=
          { model := jsOrStr originalModel "",
            stop_reason := none,
            input_tokens := 0,
            output_tokens := 0,
            cache_creation_input_tokens := 0,
            cache_read_input_tokens := 0,
            messageId := none,
            openAIId := none },
        thinkingBlock := none,
        accumulatedText := "",
        inThinkingBlock := false,
        originalModel := if truthyStr originalModel then originalModel else none },
    lineBuffer := [] }

/-! ## OpenAI chunk model -/

/-- `function` object of a tool-call delta entry. -/
structure FunctionDelta where
  name : Option String
  arguments : Option String
deriving DecidableEq, Repr

/-- One entry of `delta.tool_calls`; `typeIsFunction` records whether the
entry carries `type: 'function'`. -/
structure ToolCallEntry where
  index : Nat
  id : Option String
  typeIsFunction : Bool
  function : FunctionDelta
deriving DecidableEq, Repr

/-- `choices[i].delta`. -/
structure ChoiceDelta where
  role : Option String
  content : Option String
  tool_calls : Option (List ToolCallEntry)
deriving DecidableEq, Repr

/-- The empty delta `{}`. -/
def emptyDelta : ChoiceDelta := ⟨none, none, none⟩

/-- One element of `choices`. -/
structure ChunkChoice where
  index : Nat
  delta : ChoiceDelta
  finish_reason : Option String
deriving DecidableEq, Repr

/-- The usage object of the final usage chunk (`prompt_tokens_details` and
`completion_tokens_details` flattened to their only meaningful fields). -/
structure OpenAIUsage where
  prompt_tokens : Nat
  completion_tokens : Nat
  total_tokens : Nat
  cached_tokens : Nat
  reasoning_tokens : Nat
deriving DecidableEq, Repr

/-- An outgoing chat-completion chunk.  `object` (a constant string) and
`created` (wall clock) are omitted; see the module header. -/
structure OpenAIStreamChunk where
  id : String
  model : String
  choices : List ChunkChoice
  usage : Option OpenAIUsage
deriving DecidableEq, Repr

/-- One result of `processChunk`: a chunk to serialise or the terminal
`[DONE]` marker. -/
inductive ProcessResult where
  | chunk (data : OpenAIStreamChunk)
  | done
deriving DecidableEq, Repr

/-- Placeholder for the fallback id `'chatcmpl-' + Date.now()` (wall clock;
see the module header). -/
def chatcmplNowId : String := "chatcmpl-now"

/-- `state.metricsData.openAIId || 'chatcmpl-' + Date.now()`. -/
def chunkIdOf (st : ConvCore) : String :=
  jsOrStr st.metricsData.openAIId chatcmplNowId

/-- `state.originalModel || state.metricsData.model || 'claude-unknown'`. -/
def chunkModelOf (st : ConvCore) : String :=
  jsOrStr st.originalModel (strOr st.metricsData.model "claude-unknown")

/-- `s.replace('msg_', '')`: remove the first occurrence of the pattern. -/
def removeFirstOcc (pat : List Char) : List Char → List Char
  | [] => []
  | c :: rest =>
    if pat.isPrefixOf (c :: rest) then (c :: rest).drop pat.length
    else c :: removeFirstOcc pat rest

/-- `'chatcmpl-' + data.message.id.replace('msg_', '')`. -/
def openAIIdOf (msgId : String) : String :=
  "chatcmpl-" ++ String.mk (removeFirstOcc "msg_".data msgId.data)

/-- The opening chunk emitted at `message_start`
(`delta = {role: 'assistant', content: ''}`). -/
def mkRoleChunk (id model : String) : OpenAIStreamChunk :=
  ⟨id, model, [⟨0, ⟨some "assistant", some "", none⟩, none⟩], none⟩

/-- The chunk emitted at `content_block_start` of a `tool_use` block. -/
def mkToolStartChunk (st : ConvCore) (idx : Nat) (cb : ContentBlockPayload) :
    OpenAIStreamChunk :=
  ⟨chunkIdOf st, chunkModelOf st,
   [⟨0, ⟨none, none, some [⟨idx, cb.id, true, ⟨cb.name, some ""⟩⟩]⟩, none⟩],
   none⟩

/-- The chunk emitted for a `partial_json` tool-argument delta. -/
def mkToolArgsChunk (st : ConvCore) (idx : Nat) (newPart : String) :
    OpenAIStreamChunk :=
  ⟨chunkIdOf st, chunkModelOf st,
   [⟨0, ⟨none, none, some [⟨idx, none, false, ⟨none, some newPart⟩⟩]⟩, none⟩],
   none⟩

/-- The chunk emitted for a text delta. -/
def mkTextChunk (st : ConvCore) (t : String) : OpenAIStreamChunk :=
  ⟨chunkIdOf st, chunkModelOf st, [⟨0, ⟨none, some t, none⟩, none⟩], none⟩

/-- The finish-reason mapping: `end_turn → stop`, `tool_use → tool_calls`,
anything else passes through. -/
def mapStopReason (sr : String) : String :=
  if sr = "end_turn" then "stop"
  else if sr = "tool_use" then "tool_calls"
  else sr

/-- The chunk emitted for a `message_delta` carrying a stop reason. -/
def mkFinishChunk (st : ConvCore) (sr : String) : OpenAIStreamChunk :=
  ⟨chunkIdOf st, chunkModelOf st, [⟨0, emptyDelta, some (mapStopReason sr)⟩],
   none⟩

/-- `updateMetrics(metricsData, data)` (converter lines 463-510), as a pure
fold of the source's sequential mutations. -/
def updateMetrics (md0 : MetricsData) (d : AnthropicStreamEvent) : MetricsData :=
  let md1 :=
    match d.message with
    | some msg =>
      if d.type = "message_start" then
        let m := { md0 with messageId := msg.id }
        if truthyStr msg.model then { m with model := msg.model.getD "" } else m
      else md0
    | none => md0
  let md2 :=
    if truthyStr d.model then { md1 with model := (d.model).getD "" } else md1
  let md3 :=
    if truthyStr d.stop_reason then { md2 with stop_reason := d.stop_reason }
    else md2
  let md4 :=
    if d.type = "message_delta" ∧ truthyStr (d.delta.bind (·.stop_reason)) then
      { md3 with stop_reason := d.delta.bind (·.stop_reason) }
    else md3
  let md5 :=
    match d.usage with
    | some u =>
      { md4 with
        input_tokens := md4.input_tokens + u.input_tokens,
        output_tokens := md4.output_tokens + u.output_tokens,
        cache_creation_input_tokens :=
          md4.cache_creation_input_tokens + u.cache_creation_input_tokens.getD 0,
        cache_read_input_tokens :=
          md4.cache_read_input_tokens + u.cache_read_input_tokens.getD 0 }
    | none => md4
  let md6 :=
    match d.message with
    | some msg =>
      match msg.usage with
      | some u =>
        let m :=
          if truthyStr msg.model then { md5 with model := msg.model.getD "" }
          else md5
        { m with
          input_tokens := m.input_tokens + u.input_tokens,
          output_tokens := m.output_tokens + u.output_tokens,
          cache_creation_input_tokens :=
            m.cache_creation_input_tokens + u.cache_creation_input_tokens.getD 0,
          cache_read_input_tokens :=
            m.cache_read_input_tokens + u.cache_read_input_tokens.getD 0 }
      | none => md5
    | none => md5
  match d.message with
  | some msg =>
    if truthyStr msg.stop_reason then { md6 with stop_reason := msg.stop_reason }
    else md6
  | none => md6

/-- `transformToOpenAI(state, data)` (converter lines 574-764): the chunk to
emit, if any, together with the state it mutates (openAIId and model in the
metrics, the tool-call tracker, the accumulated text).  The overall `none`
models the one runtime throw reachable with these payloads: on
`message_start`, `data.message.id.replace('msg_', '')` throws when `id` is
absent, before any mutation of this function (the per-line try/catch of
`processChunk` catches it; see `handleEvent`).  An absent `message.model`
assigned into the string-typed metrics field is modelled as `""`, which is
falsy exactly like the `undefined` the source stores there. -/
def transformToOpenAI (st : ConvCore) (d : AnthropicStreamEvent) :
    Option (ConvCore × Option OpenAIStreamChunk) :=
  if d.type = "message_start" then
    match d.message with
    | some msg =>
      match msg.id with
      | none => none
      | some mid =>
        let newId := openAIIdOf mid
        let st1 :=
          { st with metricsData := { st.metricsData with openAIId := some newId } }
        let st2 :=
          if truthyStr st.originalModel then st1
          else
            { st1 with metricsData :=
                { st1.metricsData with model := msg.model.getD "" } }
        some (st2, some (mkRoleChunk newId (jsOrStr st.originalModel
          (msg.model.getD ""))))
    | none => some (st, none)
  else if d.type = "content_block_start" ∧
      d.content_block.map (·.type) = some "tool_use" then
    match d.content_block with
    | some cb =>
      let idx := d.index.getD 0
      let st1 :=
        { st with toolCallsTracker :=
            mapSet idx ⟨cb.id.getD "", cb.name.getD "", ""⟩ st.toolCallsTracker }
      some (st1, some (mkToolStartChunk st idx cb))
    | none => some (st, none)
  else if d.type = "content_block_delta" ∧
      truthyStr (d.delta.bind (·.partial_json)) then
    let pj := (d.delta.bind (·.partial_json)).getD ""
    let idx := d.index.getD 0
    match mapGet idx st.toolCallsTracker with
    | some tc =>
      let cumulative := tc.arguments ≠ "" ∧ strStartsWith pj tc.arguments
      let newPart := if cumulative then strDropN pj (strLen tc.arguments) else pj
      let newAcc := if cumulative then pj else tc.arguments ++ pj
      let st1 :=
        { st with toolCallsTracker :=
            mapSet idx { tc with arguments := newAcc } st.toolCallsTracker }
      some (st1, some (mkToolArgsChunk st idx newPart))
    | none => some (st, none)
  else if d.type = "content_block_delta" ∧ truthyStr (d.delta.bind (·.text)) then
    let t := (d.delta.bind (·.text)).getD ""
    some ({ st with accumulatedText := st.accumulatedText ++ t },
      some (mkTextChunk st t))
  else if d.type = "message_delta" ∧
      truthyStr (d.delta.bind (·.stop_reason)) then
    some (st, some (mkFinishChunk st ((d.delta.bind (·.stop_reason)).getD "")))
  else some (st, none)

/-- `createUsageChunk(state)` (converter lines 529-572): `none` when both
token counters are zero. -/
def createUsageChunk (st : ConvCore) : Option OpenAIStreamChunk :=
  if st.metricsData.input_tokens = 0 ∧ st.metricsData.output_tokens = 0 then none
  else
    some
      ⟨chunkIdOf st, chunkModelOf st, [⟨0, emptyDelta, none⟩],
       some
         ⟨st.metricsData.input_tokens, st.metricsData.output_tokens,
          st.metricsData.input_tokens + st.metricsData.output_tokens,
          st.metricsData.cache_read_input_tokens, 0⟩⟩

/-- The body of the per-line dispatch of `processChunk` on a parsed event
(converter lines 368-450): the thinking-capture branches, then metrics,
transformation, and the `message_stop` tail.  When the transformation
throws (`transformToOpenAI` returns `none`), the per-line try/catch of the
source suppresses the line's output while the mutation already made by
`updateMetrics` persists. -/
def handleEvent (st : ConvCore) (d : AnthropicStreamEvent) :
    ConvCore × List ProcessResult :=
  if d.type = "ping" then (st, [])
  else if d.type = "content_block_start" ∧
      (d.content_block.map (·.type) = some "thinking" ∨
       d.content_block.map (·.type) = some "redacted_thinking") then
    ({ st with
        inThinkingBlock := true,
        thinkingBlock :=
          some ⟨(d.content_block.bind (·.thinking)).getD "",
                (d.content_block.bind (·.signature)).getD ""⟩ }, [])
  else if d.type = "content_block_delta" ∧
      truthyStr (d.delta.bind (·.thinking)) then
    (match st.thinkingBlock with
     | some tb =>
       let tb1 : ThinkingBlockData :=
         ⟨tb.thinking ++ (d.delta.bind (·.thinking)).getD "", tb.signature⟩
       { st with thinkingBlock := some tb1 }
     | none => st, [])
  else if d.type = "content_block_delta" ∧
      truthyStr (d.delta.bind (·.signature)) then
    (match st.thinkingBlock with
     | some tb =>
       let tb1 : ThinkingBlockData :=
         ⟨tb.thinking, tb.signature ++ (d.delta.bind (·.signature)).getD ""⟩
       { st with thinkingBlock := some tb1 }
     | none => st, [])
  else if d.type = "content_block_stop" then
    let st1 :=
      if st.inThinkingBlock ∧ truthyStr d.signature then
        match st.thinkingBlock with
        | some tb =>
          { st with thinkingBlock := some ⟨tb.thinking, (d.signature).getD ""⟩ }
        | none => st
      else st
    ({ st1 with inThinkingBlock := false }, [])
  else if d.type = "content_block_start" ∧
      d.content_block.map (·.type) = some "text" then (st, [])
  else
    let stM := { st with metricsData := updateMetrics st.metricsData d }
    match transformToOpenAI stM d with
    | none => (stM, [])
    | some transformed =>
      let base :=
        match transformed.2 with
        | some c => [ProcessResult.chunk c]
        | none => []
      if d.type = "message_stop" then
        (transformed.1,
         base ++
           (match createUsageChunk transformed.1 with
            | some u => [ProcessResult.chunk u]
            | none => []) ++
           [ProcessResult.done])
      else (transformed.1, base)

/-- The metrics update that every dispatched event applies first. -/
def metricsUpd (st : ConvCore) (e : AnthropicStreamEvent) : ConvCore :=
  { st with metricsData := updateMetrics st.metricsData e }

/-! ## Line handling and chunk processing -/

/-- Classification and dispatch of one fully terminated SSE line (the body
of the `for` loop of `processChunk`, lines 357-456): trim; skip empty and
`event:` lines; on a `data: ` line containing a brace, strip the prefix and
parse; a parse failure is caught and the line is skipped. -/
def handleLine (parse : List Char → Option AnthropicStreamEvent)
    (st : ConvCore) (line : List Char) : ConvCore × List ProcessResult :=
  let t := jsTrimList line
  if t = [] then (st, [])
  else if "event:".data.isPrefixOf t then (st, [])
  else if "data: ".data.isPrefixOf t ∧ t.contains '\x7b' then
    match parse (t.drop 6) with
    | some d => handleEvent st d
    | none => (st, [])
  else (st, [])

/-- Sequential processing of a list of complete lines, concatenating the
emitted results. -/
def foldLines (parse : List Char → Option AnthropicStreamEvent)
    (st : ConvCore) : List (List Char) → ConvCore × List ProcessResult
  | [] => (st, [])
  | l :: ls =>
    let first := handleLine parse st l
    let rest := foldLines parse first.1 ls
    (rest.1, first.2 ++ rest.2)

/-- Sequential processing of a list of already-parsed events (the
translator's event dispatch applied in upstream order). -/
def foldEvents (st : ConvCore) :
    List AnthropicStreamEvent → ConvCore × List ProcessResult
  | [] => (st, [])
  | d :: ds =>
    let first := handleEvent st d
    let rest := foldEvents first.1 ds
    (rest.1, first.2 ++ rest.2)

/-- `fullContent.endsWith('\n')`. -/
def jsEndsWithNl (cs : List Char) : Bool :=
  match cs.getLast? with
  | some c => c = '\n'
  | none => false

/-- `processChunk(state, chunk)` (converter lines 335-460): prepend the
buffered partial line, split on newlines, retain an unterminated trailing
fragment in the buffer, and dispatch every fully terminated line. -/
def processChunk (parse : List Char → Option AnthropicStreamEvent)
    (st : ConverterState) (chunk : List Char) :
    ConverterState × List ProcessResult :=
  let full := st.lineBuffer ++ chunk
  let lines0 := splitOnChar '\n' full
  let split :=
    if jsEndsWithNl full then (lines0, ([] : List Char))
    else (lines0.dropLast, (lines0.getLast?).getD [])
  let folded := foldLines parse st.core split.1
  (⟨folded.1, split.2⟩, folded.2)

/-- Feeding a sequence of byte chunks through `processChunk` against one
converter state, concatenating all results. -/
def processChunks (parse : List Char → Option AnthropicStreamEvent)
    (st : ConverterState) : List (List Char) → ConverterState × List ProcessResult
  | [] => (st, [])
  | c :: cs =>
    let first := processChunk parse st c
    let rest := processChunks parse first.1 cs
    (rest.1, first.2 ++ rest.2)

/-! ## Theorems: cache-key stability (C7) -/

/-- A leading thinking-kind block contributes nothing to the key parts. -/
lemma cacheKeyParts_cons_thinking (b : ContentBlock) (c : List ContentBlock)
    (h : b.isThinkingKind = true) : cacheKeyParts (b :: c) = cacheKeyParts c := by
  simp [cacheKeyParts, List.filter_cons, h]

/-- Removing the thinking-kind blocks leaves the key parts unchanged. -/
lemma cacheKeyParts_filter_eq (c : List ContentBlock) :
    cacheKeyParts (c.filter (fun b => !b.isThinkingKind)) = cacheKeyParts c := by
  simp [cacheKeyParts, List.filter_filter]

/-- Equal key parts give equal cache keys. -/
lemma generateCacheKey_blocks_congr {c c' : List ContentBlock}
    (h : cacheKeyParts c = cacheKeyParts c') :
    generateCacheKey (.blocks c) = generateCacheKey (.blocks c') := by
  simp [generateCacheKey, h]

/-- C7: the cache key is a pure function of the non-thinking blocks:
prepending a thinking or redacted_thinking block does not change the key,
the key equals the key of the content with all thinking blocks removed, and
tool_use inputs are serialised with sorted object keys, so the inputs
`{b:1,a:2}` and `{a:2,b:1}` produce the same key. -/
theorem generateCacheKey_pure_nonthinking :
    (∀ (c : List ContentBlock) (th sig : String),
        generateCacheKey (.blocks (.thinking th sig :: c))
          = generateCacheKey (.blocks c)) ∧
    (∀ (c : List ContentBlock) (dat : String),
        generateCacheKey (.blocks (.redactedThinking dat :: c))
          = generateCacheKey (.blocks c)) ∧
    (∀ c : List ContentBlock,
        generateCacheKey (.blocks c)
          = generateCacheKey (.blocks (c.filter (fun b => !b.isThinkingKind)))) ∧
    generateCacheKey (.blocks [.toolUse "t" "f" (some [("b", 1), ("a", 2)])])
      = generateCacheKey (.blocks [.toolUse "t" "f" (some [("a", 2), ("b", 1)])]) := by
  refine ⟨?_, ?_, ?_, by rfl⟩
  · intro c th sig
    exact generateCacheKey_blocks_congr (cacheKeyParts_cons_thinking _ _ rfl)
  · intro c dat
    exact generateCacheKey_blocks_congr (cacheKeyParts_cons_thinking _ _ rfl)
  · intro c
    exact (generateCacheKey_blocks_congr (cacheKeyParts_filter_eq c)).symm

/-! ## Theorems: model-variant resolution (C8) -/

/-- C8 counterexample: the mixed-case name "CLAUDE-OPUS-4-5" does not
resolve to the same upstream model as "claude-opus-4-5" — the passthrough
branch returns the client string unmodified as the upstream model. -/
theorem resolveModelVariant_mixed_case_counterexample :
    (resolveModelVariant "CLAUDE-OPUS-4-5").model = "CLAUDE-OPUS-4-5" ∧
    (resolveModelVariant "claude-opus-4-5").model = "claude-opus-4-5" ∧
    (resolveModelVariant "CLAUDE-OPUS-4-5").model
      ≠ (resolveModelVariant "claude-opus-4-5").model := by
  refine ⟨rfl, rfl, fun h => ?_⟩
  have h' : ("CLAUDE-OPUS-4-5" : String) = "claude-opus-4-5" := h
  exact absurd h' (by decide)

/-- C8 amended: any two model strings with the same lowercased-trimmed form
resolve to the same max_tokens and the same thinking configuration, with
original_model the unmodified client string; the upstream model also agrees
whenever the normalised name matches the variant table or contains
"thinking" (in the passthrough branches the upstream model is the
unmodified client string itself). -/
theorem resolveModelVariant_normalized_agreement (m n : String)
    (h : jsNormalize m = jsNormalize n) :
    (resolveModelVariant m).maxTokens = (resolveModelVariant n).maxTokens ∧
    (resolveModelVariant m).thinking = (resolveModelVariant n).thinking ∧
    (resolveModelVariant m).originalModel = m ∧
    (resolveModelVariant n).originalModel = n ∧
    ((MODEL_VARIANTS.find? (fun e => jsLowerStr e.1 == jsNormalize m)).isSome = true ∨
        strContainsSub (jsNormalize m) "thinking" = true →
      (resolveModelVariant m).model = (resolveModelVariant n).model) := by
  simp only [resolveModelVariant, h]
  rcases hf : MODEL_VARIANTS.find? (fun e => jsLowerStr e.1 == jsNormalize n) with _ | ⟨k, config⟩
  · by_cases ht : strContainsSub (jsNormalize n) "thinking" = true
    · simp [hf, ht]
    · simp [hf, ht]
  · simp [hf]

/-- Witness for the amended C8 theorem at a variant-table pair: the
mixed-case thinking alias resolves with the same max_tokens, thinking
configuration, and upstream model as its lowercase form. -/
theorem resolveModelVariant_normalized_agreement_witness :
    jsNormalize "CLAUDE-4-Sonnet-High-Thinking"
      = jsNormalize "claude-4-sonnet-high-thinking" ∧
    (resolveModelVariant "CLAUDE-4-Sonnet-High-Thinking").maxTokens
      = (resolveModelVariant "claude-4-sonnet-high-thinking").maxTokens ∧
    (resolveModelVariant "CLAUDE-4-Sonnet-High-Thinking").thinking
      = (resolveModelVariant "claude-4-sonnet-high-thinking").thinking ∧
    (resolveModelVariant "CLAUDE-4-Sonnet-High-Thinking").model
      = (resolveModelVariant "claude-4-sonnet-high-thinking").model := by
  have h : jsNormalize "CLAUDE-4-Sonnet-High-Thinking"
      = jsNormalize "claude-4-sonnet-high-thinking" := by rfl
  have r := resolveModelVariant_normalized_agreement
    "CLAUDE-4-Sonnet-High-Thinking" "claude-4-sonnet-high-thinking" h
  exact ⟨h, r.1, r.2.1, r.2.2.2.2 (Or.inr (by rfl))⟩

/-! ## Theorems: thinking-block injection (C2, C10) and downgrade (C3) -/

/-- An assistant message without a thinking block whose key hits the cache. -/
def injHit (cache : String → Option ContentBlock) (m : AnthropicMessage) : Bool :=
  m.role == "assistant" && !contentHasThinking m.content &&
    (cache (generateCacheKey m.content)).isSome

/-- An assistant message without a thinking block whose key misses the cache. -/
def injMiss (cache : String → Option ContentBlock) (m : AnthropicMessage) : Bool :=
  m.role == "assistant" && !contentHasThinking m.content &&
    (cache (generateCacheKey m.content)).isNone

/-- Per-message injected/missing contributions, characterised by the hit and
miss predicates. -/
lemma injectMsg_counts (cache : String → Option ContentBlock) (m : AnthropicMessage) :
    (injectMsg cache m).2.1 = (if injHit cache m then 1 else 0) ∧
    (injectMsg cache m).2.2 = (if injMiss cache m then 1 else 0) := by
  obtain ⟨r, c⟩ := m
  unfold injectMsg injHit injMiss
  by_cases hrole : r = "assistant"
  · subst hrole
    rcases c with s | bs
    · rcases hcache : cache (generateCacheKey (.str s)) with _ | cached <;>
        simp [contentHasThinking, hcache]
    · by_cases hth : hasThinkingBlock bs
      · simp [contentHasThinking, hth]
      · rcases hcache : cache (generateCacheKey (.blocks bs)) with _ | cached <;>
          simp [contentHasThinking, hth, hcache]
  · simp [hrole]

/-- Injection never changes a message's role. -/
lemma injectMsg_role (cache : String → Option ContentBlock) (m : AnthropicMessage) :
    (injectMsg cache m).1.role = m.role := by
  obtain ⟨r, c⟩ := m
  unfold injectMsg
  by_cases hrole : r = "assistant"
  · subst hrole
    rcases c with s | bs
    · rcases hcache : cache (generateCacheKey (.str s)) with _ | cached <;>
        simp [hcache]
    · by_cases hth : hasThinkingBlock bs
      · simp [hth]
      · rcases hcache : cache (generateCacheKey (.blocks bs)) with _ | cached <;>
          simp [hth, hcache]
  · simp [hrole]

/-- After injection a message carries a thinking block iff it already did or
its lookup hit (for caches that only store thinking-kind blocks). -/
lemma injectMsg_post (cache : String → Option ContentBlock) (m : AnthropicMessage)
    (hcache : ∀ k b, cache k = some b → b.isThinkingKind = true) :
    contentHasThinking (injectMsg cache m).1.content
      = (contentHasThinking m.content || injHit cache m) := by
  obtain ⟨r, c⟩ := m
  unfold injectMsg injHit
  by_cases hrole : r = "assistant"
  · subst hrole
    rcases c with s | bs
    · rcases hcache2 : cache (generateCacheKey (.str s)) with _ | cached
      · simp [contentHasThinking, hcache2]
      · have hk := hcache _ _ hcache2
        simp [contentHasThinking, hcache2, hasThinkingBlock, hk]
    · by_cases hth : hasThinkingBlock bs
      · simp [contentHasThinking, hth]
      · rcases hcache2 : cache (generateCacheKey (.blocks bs)) with _ | cached
        · simp [contentHasThinking, hth, hcache2]
        · have hk := hcache _ _ hcache2
          simp only [hcache2]
          rw [if_neg hth]
          simp [contentHasThinking, hasThinkingBlock, hk]
  · simp [hrole]

/-- C2: injection returns `{injected_count, missing_count, can_use_thinking}`
where injected_count counts the assistant messages that received a prepended
cached thinking block, missing_count counts the assistant messages with no
thinking block and no cache hit, and can_use_thinking is true iff after
injection no assistant message remains without a thinking block. -/
theorem injectCachedThinkingBlocks_result_spec
    (cache : String → Option ContentBlock) (msgs : List AnthropicMessage)
    (hcache : ∀ k b, cache k = some b → b.isThinkingKind = true) :
    (injectCachedThinkingBlocks cache msgs).2.injectedCount
        = msgs.countP (injHit cache) ∧
    (injectCachedThinkingBlocks cache msgs).2.missingCount
        = msgs.countP (injMiss cache) ∧
    ((injectCachedThinkingBlocks cache msgs).2.canUseThinking = true ↔
      ∀ m ∈ (injectCachedThinkingBlocks cache msgs).1,
        m.role = "assistant" → contentHasThinking m.content = true) := by
  have hinj : ∀ ms : List AnthropicMessage,
      (ms.map (fun m => (injectMsg cache m).2.1)).sum = ms.countP (injHit cache) := by
    intro ms
    induction ms with
    | nil => simp
    | cons m rest ih =>
      simp only [List.map_cons, List.sum_cons, List.countP_cons, ih,
        (injectMsg_counts cache m).1]
      by_cases h : injHit cache m <;> simp [h, Nat.add_comm]
  have hmiss : ∀ ms : List AnthropicMessage,
      (ms.map (fun m => (injectMsg cache m).2.2)).sum = ms.countP (injMiss cache) := by
    intro ms
    induction ms with
    | nil => simp
    | cons m rest ih =>
      simp only [List.map_cons, List.sum_cons, List.countP_cons, ih,
        (injectMsg_counts cache m).2]
      by_cases h : injMiss cache m <;> simp [h, Nat.add_comm]
  refine ⟨?first, ?second, ?third⟩
  case first =>
    simp only [injectCachedThinkingBlocks, List.map_map, Function.comp_def]
    exact hinj msgs
  case second =>
    simp only [injectCachedThinkingBlocks, List.map_map, Function.comp_def]
    exact hmiss msgs
  case third =>
  have hcan : (injectCachedThinkingBlocks cache msgs).2.canUseThinking
      = (msgs.countP (injMiss cache) == 0) := by
    simp only [injectCachedThinkingBlocks, List.map_map, Function.comp_def]
    rw [hmiss msgs]
  rw [hcan]
  constructor
  · intro h0 m hm hrole
    simp only [injectCachedThinkingBlocks, List.map_map, Function.comp_def,
      List.mem_map] at hm
    obtain ⟨m0, hm0, rfl⟩ := hm
    have hz : msgs.countP (injMiss cache) = 0 := by simpa using h0
    have hnm : ¬ injMiss cache m0 = true := by
      have := List.countP_eq_zero.mp hz
      exact this m0 hm0
    have hrole0 : m0.role = "assistant" := by
      rw [← injectMsg_role cache m0]; exact hrole
    rw [injectMsg_post cache m0 hcache]
    by_cases hth : contentHasThinking m0.content
    · simp [hth]
    · have hsome : (cache (generateCacheKey m0.content)).isSome = true := by
        rcases hoc : cache (generateCacheKey m0.content) with _ | b
        · exfalso
          apply hnm
          simp [injMiss, hrole0, hth, hoc]
        · rfl
      simp [injHit, hrole0, hth, hsome]
  · intro hall
    simp only [beq_iff_eq]
    rw [List.countP_eq_zero]
    intro m0 hm0
    intro hmm
    have hrole0 : m0.role = "assistant" := by
      have := hmm
      simp only [injMiss, Bool.and_eq_true, beq_iff_eq] at this
      exact this.1.1
    have hth0 : contentHasThinking m0.content = false := by
      have := hmm
      simp only [injMiss, Bool.and_eq_true, Bool.not_eq_true'] at this
      exact this.1.2
    have hnone : cache (generateCacheKey m0.content) = none := by
      have := hmm
      simp only [injMiss, Bool.and_eq_true, Option.isNone_iff_eq_none] at this
      exact this.2
    have hmem : (injectMsg cache m0).1 ∈ (injectCachedThinkingBlocks cache msgs).1 := by
      simp only [injectCachedThinkingBlocks, List.map_map, Function.comp_def,
        List.mem_map]
      exact ⟨m0, hm0, rfl⟩
    have hpost := hall _ hmem (by rw [injectMsg_role cache m0]; exact hrole0)
    rw [injectMsg_post cache m0 hcache] at hpost
    simp [hth0, injHit, hrole0, hnone] at hpost

/-- C10: injection leaves non-assistant messages and assistant messages that
already contain a thinking block unchanged; when it modifies an assistant
message it only prepends the single cached block, preserving the existing
blocks in order, and an assistant message with string content becomes
exactly `[cached thinking block, text block with the original string]`. -/
theorem injectCachedThinkingBlocks_frame
    (cache : String → Option ContentBlock) (msgs : List AnthropicMessage) :
    (injectCachedThinkingBlocks cache msgs).1
        = msgs.map (fun m => (injectMsg cache m).1) ∧
    (∀ m : AnthropicMessage, m.role ≠ "assistant" → (injectMsg cache m).1 = m) ∧
    (∀ m : AnthropicMessage, contentHasThinking m.content = true →
        (injectMsg cache m).1 = m) ∧
    (∀ (m : AnthropicMessage) (bs : List ContentBlock),
        m.role = "assistant" → m.content = .blocks bs → hasThinkingBlock bs = false →
        (∀ cached, cache (generateCacheKey (.blocks bs)) = some cached →
            (injectMsg cache m).1 = { m with content := .blocks (cached :: bs) }) ∧
        (cache (generateCacheKey (.blocks bs)) = none → (injectMsg cache m).1 = m)) ∧
    (∀ (m : AnthropicMessage) (s : String),
        m.role = "assistant" → m.content = .str s →
        (∀ cached, cache (generateCacheKey (.str s)) = some cached →
            (injectMsg cache m).1 = { m with content := .blocks [cached, .text s] }) ∧
        (cache (generateCacheKey (.str s)) = none → (injectMsg cache m).1 = m)) := by
  refine ⟨by simp [injectCachedThinkingBlocks, List.map_map, Function.comp_def],
    ?_, ?_, ?_, ?_⟩
  · intro m hrole
    simp [injectMsg, hrole]
  · intro m hth
    obtain ⟨r, c⟩ := m
    unfold injectMsg
    by_cases hrole : r = "assistant"
    · subst hrole
      rcases c with s | bs
      · simp [contentHasThinking] at hth
      · simp only [contentHasThinking] at hth
        simp [hth]
    · simp [hrole]
  · intro m bs hrole hc hth
    obtain ⟨r, c⟩ := m
    simp only at hrole hc
    subst hrole
    subst hc
    constructor
    · intro cached hcached
      simp [injectMsg, hth, hcached]
    · intro hnone
      simp [injectMsg, hth, hnone]
  · intro m s hrole hc
    obtain ⟨r, c⟩ := m
    simp only at hrole hc
    subst hrole
    subst hc
    constructor
    · intro cached hcached
      simp [injectMsg, hcached]
    · intro hnone
      simp [injectMsg, hnone]

/-- C3: if the resolved variant enables thinking, the message list is
non-empty, and injection reports `can_use_thinking = false`, the pipeline
removes the thinking parameter, restores the client's original temperature,
strips the interleaved-thinking beta from the header, and still dispatches
the (injected) messages to the resolved upstream model. -/
theorem buildDispatchPlan_thinking_downgrade
    (cache : String → Option ContentBlock) (model : String)
    (clientTemperature : Option ℚ) (messages : List AnthropicMessage)
    (hthink : (resolveModelVariant model).thinking.isSome = true)
    (hmsgs : messages ≠ [])
    (hmiss : (injectCachedThinkingBlocks cache messages).2.canUseThinking = false) :
    (buildDispatchPlan cache model clientTemperature messages).body.thinking = none ∧
    (buildDispatchPlan cache model clientTemperature messages).body.temperature
      = clientTemperature ∧
    (buildDispatchPlan cache model clientTemperature messages).anthropicBeta
      = joinComma baseBetaFeatures ∧
    (buildDispatchPlan cache model clientTemperature messages).thinkingEnabled
      = false ∧
    (buildDispatchPlan cache model clientTemperature messages).body.messages
      = (injectCachedThinkingBlocks cache messages).1 ∧
    (buildDispatchPlan cache model clientTemperature messages).body.model
      = (resolveModelVariant model).model := by
  have hbeta : joinComma ((splitComma (joinComma (baseBetaFeatures ++
      ["interleaved-thinking-2025-05-14"]))).filter
      (fun h => !strContainsSub h "interleaved-thinking"))
      = joinComma baseBetaFeatures := by rfl
  simp [buildDispatchPlan, hthink, hmsgs, hmiss, hbeta]

/-- Witness for the C3 theorem at a concrete downgrade scenario. -/
theorem buildDispatchPlan_thinking_downgrade_witness :
    (resolveModelVariant "claude-4-sonnet-high-thinking").thinking.isSome = true ∧
    ([⟨"assistant", .str "hi"⟩] : List AnthropicMessage) ≠ [] ∧
    (injectCachedThinkingBlocks (fun _ => none)
        [⟨"assistant", .str "hi"⟩]).2.canUseThinking = false ∧
    (buildDispatchPlan (fun _ => none) "claude-4-sonnet-high-thinking"
        (some (7/10)) [⟨"assistant", .str "hi"⟩]).body.thinking = none ∧
    (buildDispatchPlan (fun _ => none) "claude-4-sonnet-high-thinking"
        (some (7/10)) [⟨"assistant", .str "hi"⟩]).body.temperature = some (7/10) ∧
    (buildDispatchPlan (fun _ => none) "claude-4-sonnet-high-thinking"
        (some (7/10)) [⟨"assistant", .str "hi"⟩]).anthropicBeta
      = joinComma baseBetaFeatures ∧
    (buildDispatchPlan (fun _ => none) "claude-4-sonnet-high-thinking"
        (some (7/10)) [⟨"assistant", .str "hi"⟩]).thinkingEnabled = false := by
  have h1 : (resolveModelVariant "claude-4-sonnet-high-thinking").thinking.isSome
      = true := by rfl
  have h2 : ([⟨"assistant", .str "hi"⟩] : List AnthropicMessage) ≠ [] := by
    simp
  have h3 : (injectCachedThinkingBlocks (fun _ => none)
      [⟨"assistant", .str "hi"⟩]).2.canUseThinking = false := by rfl
  have r := buildDispatchPlan_thinking_downgrade (fun _ => none)
    "claude-4-sonnet-high-thinking" (some (7/10)) [⟨"assistant", .str "hi"⟩]
    h1 h2 h3
  exact ⟨h1, h2, h3, r.1, r.2.1, r.2.2.1, r.2.2.2.1⟩

/-- Witness for the C2 theorem at a concrete cache and message list. -/
theorem injectCachedThinkingBlocks_result_spec_witness :
    (∀ (k : String) (b : ContentBlock),
        (fun _ => (none : Option ContentBlock)) k = some b →
        b.isThinkingKind = true) ∧
    ((injectCachedThinkingBlocks (fun _ => none)
        [⟨"assistant", MsgContent.str "hi"⟩, ⟨"user", MsgContent.str "x"⟩]).2.injectedCount
      = List.countP (injHit (fun _ => none))
          [⟨"assistant", MsgContent.str "hi"⟩, ⟨"user", MsgContent.str "x"⟩] ∧
     (injectCachedThinkingBlocks (fun _ => none)
        [⟨"assistant", MsgContent.str "hi"⟩, ⟨"user", MsgContent.str "x"⟩]).2.missingCount
      = List.countP (injMiss (fun _ => none))
          [⟨"assistant", MsgContent.str "hi"⟩, ⟨"user", MsgContent.str "x"⟩] ∧
     ((injectCachedThinkingBlocks (fun _ => none)
        [⟨"assistant", MsgContent.str "hi"⟩, ⟨"user", MsgContent.str "x"⟩]).2.canUseThinking = true ↔
       ∀ m ∈ (injectCachedThinkingBlocks (fun _ => none)
          [⟨"assistant", MsgContent.str "hi"⟩, ⟨"user", MsgContent.str "x"⟩]).1,
         m.role = "assistant" → contentHasThinking m.content = true)) := by
  have hcache : ∀ (k : String) (b : ContentBlock),
      (fun _ => (none : Option ContentBlock)) k = some b →
      b.isThinkingKind = true := by
    intro k b h
    cases h
  exact ⟨hcache, injectCachedThinkingBlocks_result_spec (fun _ => none) _ hcache⟩

/-- Witness for the C10 theorem at concrete caches and messages. -/
theorem injectCachedThinkingBlocks_frame_witness :
    (injectMsg (fun _ => none) ⟨"user", MsgContent.str "u"⟩).1
      = ⟨"user", MsgContent.str "u"⟩ ∧
    (injectMsg (fun _ => none)
        ⟨"assistant", MsgContent.blocks [.thinking "a" "b"]⟩).1
      = ⟨"assistant", MsgContent.blocks [.thinking "a" "b"]⟩ ∧
    (injectMsg (fun _ => some (.thinking "T" "S"))
        ⟨"assistant", MsgContent.blocks [.text "x"]⟩).1
      = ⟨"assistant", MsgContent.blocks [.thinking "T" "S", .text "x"]⟩ ∧
    (injectMsg (fun _ => none) ⟨"assistant", MsgContent.blocks [.text "x"]⟩).1
      = ⟨"assistant", MsgContent.blocks [.text "x"]⟩ ∧
    (injectMsg (fun _ => some (.thinking "T" "S"))
        ⟨"assistant", MsgContent.str "hi"⟩).1
      = ⟨"assistant", MsgContent.blocks [.thinking "T" "S", .text "hi"]⟩ ∧
    (injectMsg (fun _ => none) ⟨"assistant", MsgContent.str "hi"⟩).1
      = ⟨"assistant", MsgContent.str "hi"⟩ := by
  refine ⟨(injectCachedThinkingBlocks_frame (fun _ => none) []).2.1 _ (by decide),
    (injectCachedThinkingBlocks_frame (fun _ => none) []).2.2.1 _ (by rfl),
    ?_, ?_, ?_, ?_⟩
  · exact ((injectCachedThinkingBlocks_frame (fun _ => some (.thinking "T" "S"))
      []).2.2.2.1 _ [.text "x"] rfl rfl rfl).1 _ rfl
  · exact ((injectCachedThinkingBlocks_frame (fun _ => none)
      []).2.2.2.1 _ [.text "x"] rfl rfl rfl).2 rfl
  · exact ((injectCachedThinkingBlocks_frame (fun _ => some (.thinking "T" "S"))
      []).2.2.2.2 _ "hi" rfl rfl).1 _ rfl
  · exact ((injectCachedThinkingBlocks_frame (fun _ => none)
      []).2.2.2.2 _ "hi" rfl rfl).2 rfl

/-! ## Theorems: chunk-boundary independence (C1) -/

/-- Recursive characterisation of the splitting step of `processChunk`: the
fully terminated lines and the unterminated trailing fragment of a byte
string. -/
def splitCompleteRec : List Char → List (List Char) × List Char
  | [] => ([], [])
  | c :: rest =>
    if c = '\n' then
      ([] :: (splitCompleteRec rest).1, (splitCompleteRec rest).2)
    else
      match splitCompleteRec rest with
      | ([], buf) => ([], c :: buf)
      | (l :: ls, buf) => ((c :: l) :: ls, buf)

/-- A leading newline terminates an empty line. -/
lemma splitCompleteRec_cons_nl (rest : List Char) :
    splitCompleteRec ('\n' :: rest)
      = ([] :: (splitCompleteRec rest).1, (splitCompleteRec rest).2) := by
  simp [splitCompleteRec]

/-- A leading non-newline character joins the trailing fragment when there
is no complete line. -/
lemma splitCompleteRec_cons_mt {c : Char} (rest : List Char) (buf : List Char)
    (hc : c ≠ '\n') (h : splitCompleteRec rest = ([], buf)) :
    splitCompleteRec (c :: rest) = ([], c :: buf) := by
  simp [splitCompleteRec, hc, h]

/-- A leading non-newline character joins the first complete line. -/
lemma splitCompleteRec_cons_ln {c : Char} (rest : List Char) (l : List Char)
    (ls : List (List Char)) (buf : List Char)
    (hc : c ≠ '\n') (h : splitCompleteRec rest = (l :: ls, buf)) :
    splitCompleteRec (c :: rest) = ((c :: l) :: ls, buf) := by
  simp [splitCompleteRec, hc, h]

/-- `split('\n')` returns the complete lines followed by the trailing
fragment. -/
lemma splitOnChar_nl_eq (cs : List Char) :
    splitOnChar '\n' cs = (splitCompleteRec cs).1 ++ [(splitCompleteRec cs).2] := by
  induction cs with
  | nil => simp [splitOnChar, splitCompleteRec]
  | cons c rest ih =>
    rcases h : splitCompleteRec rest with ⟨ls, buf⟩
    rw [h] at ih
    by_cases hc : c = '\n'
    · subst hc
      rw [splitCompleteRec_cons_nl, h]
      simp only [splitOnChar, ih]
      cases ls with
      | nil => simp
      | cons a as => simp
    · cases ls with
      | nil =>
        rw [splitCompleteRec_cons_mt rest buf hc h]
        simp only [splitOnChar, ih]
        simp [hc]
      | cons l ls' =>
        rw [splitCompleteRec_cons_ln rest l ls' buf hc h]
        simp only [splitOnChar, ih]
        simp [hc]

/-- A newline-terminated string has an empty trailing fragment and at least
one complete line. -/
lemma jsEndsWithNl_split (cs : List Char) (h : jsEndsWithNl cs = true) :
    (splitCompleteRec cs).2 = [] ∧ (splitCompleteRec cs).1 ≠ [] := by
  induction cs with
  | nil => simp [jsEndsWithNl] at h
  | cons c rest ih =>
    cases rest with
    | nil =>
      simp [jsEndsWithNl] at h
      subst h
      rw [splitCompleteRec_cons_nl]
      simp [splitCompleteRec]
    | cons r rs =>
      have hr : jsEndsWithNl (r :: rs) = true := by
        simpa [jsEndsWithNl] using h
      obtain ⟨h2, h1⟩ := ih hr
      rcases hsr : splitCompleteRec (r :: rs) with ⟨ls, buf⟩
      rw [hsr] at h1 h2
      simp only at h1 h2
      subst h2
      cases ls with
      | nil => exact absurd rfl h1
      | cons l ls' =>
        by_cases hc : c = '\n'
        · subst hc
          rw [splitCompleteRec_cons_nl, hsr]
          simp
        · rw [splitCompleteRec_cons_ln _ _ _ _ hc hsr]
          simp

/-- An empty line is skipped. -/
lemma handleLine_nil (parse : List Char → Option AnthropicStreamEvent)
    (st : ConvCore) : handleLine parse st [] = (st, []) := by
  simp [handleLine, jsTrimList]

/-- Processing concatenated line lists composes. -/
lemma foldLines_append (parse : List Char → Option AnthropicStreamEvent)
    (st : ConvCore) (l1 l2 : List (List Char)) :
    foldLines parse st (l1 ++ l2)
      = ((foldLines parse (foldLines parse st l1).1 l2).1,
         (foldLines parse st l1).2 ++ (foldLines parse (foldLines parse st l1).1 l2).2) := by
  induction l1 generalizing st with
  | nil => simp [foldLines]
  | cons l ls ih => simp [foldLines, ih]

/-- A trailing empty line changes nothing. -/
lemma foldLines_concat_nil (parse : List Char → Option AnthropicStreamEvent)
    (st : ConvCore) (ls : List (List Char)) :
    foldLines parse st (ls ++ [[]]) = foldLines parse st ls := by
  rw [foldLines_append]
  simp [foldLines, handleLine_nil]

/-- Normal form of `processChunk`: fold the complete lines, buffer the
trailing fragment. -/
lemma processChunk_eq_rec (parse : List Char → Option AnthropicStreamEvent)
    (st : ConverterState) (chunk : List Char) :
    processChunk parse st chunk
      = (⟨(foldLines parse st.core (splitCompleteRec (st.lineBuffer ++ chunk)).1).1,
          (splitCompleteRec (st.lineBuffer ++ chunk)).2⟩,
         (foldLines parse st.core (splitCompleteRec (st.lineBuffer ++ chunk)).1).2) := by
  unfold processChunk
  by_cases h : jsEndsWithNl (st.lineBuffer ++ chunk) = true
  · obtain ⟨h2, h1⟩ := jsEndsWithNl_split _ h
    simp only [h, if_true, splitOnChar_nl_eq, h2]
    rw [foldLines_concat_nil]
  · simp only [h, if_false, splitOnChar_nl_eq]
    rw [List.dropLast_concat, List.getLast?_concat]
    simp

/-- Composition law of the splitter over concatenation. -/
lemma splitCompleteRec_append (a b : List Char) :
    splitCompleteRec (a ++ b)
      = ((splitCompleteRec a).1
           ++ (splitCompleteRec ((splitCompleteRec a).2 ++ b)).1,
         (splitCompleteRec ((splitCompleteRec a).2 ++ b)).2) := by
  induction a with
  | nil => simp [splitCompleteRec]
  | cons c a ih =>
    by_cases hc : c = '\n'
    · subst hc
      rw [List.cons_append, splitCompleteRec_cons_nl, splitCompleteRec_cons_nl, ih]
      simp
    · rcases ha : splitCompleteRec a with ⟨als, abuf⟩
      rw [ha] at ih
      cases als with
      | nil =>
        rw [splitCompleteRec_cons_mt a abuf hc ha]
        simp only [List.nil_append] at ih
        rcases hx : splitCompleteRec (abuf ++ b) with ⟨xls, xbuf⟩
        rw [hx] at ih
        cases xls with
        | nil =>
          rw [List.cons_append, splitCompleteRec_cons_mt (a ++ b) xbuf hc ih,
              List.cons_append, splitCompleteRec_cons_mt (abuf ++ b) xbuf hc hx]
          simp
        | cons xl xls' =>
          rw [List.cons_append, splitCompleteRec_cons_ln (a ++ b) xl xls' xbuf hc ih,
              List.cons_append, splitCompleteRec_cons_ln (abuf ++ b) xl xls' xbuf hc hx]
          simp
      | cons al als' =>
        rw [splitCompleteRec_cons_ln a al als' abuf hc ha]
        rcases hx : splitCompleteRec (abuf ++ b) with ⟨xls, xbuf⟩
        rw [hx] at ih
        simp only [List.cons_append] at ih
        rw [List.cons_append, splitCompleteRec_cons_ln (a ++ b) al (als' ++ xls) xbuf hc ih]
        simp

lemma processChunk_append (parse : List Char → Option AnthropicStreamEvent)
    (st : ConverterState) (a b : List Char) :
    processChunk parse st (a ++ b)
      = ((processChunk parse (processChunk parse st a).1 b).1,
         (processChunk parse st a).2
           ++ (processChunk parse (processChunk parse st a).1 b).2) := by
  rw [processChunk_eq_rec, processChunk_eq_rec, processChunk_eq_rec]
  have hassoc : st.lineBuffer ++ (a ++ b) = (st.lineBuffer ++ a) ++ b := by
    rw [List.append_assoc]
  rw [hassoc, splitCompleteRec_append (st.lineBuffer ++ a) b, foldLines_append]

/-- Unfolding equation of `processChunks`. -/
lemma processChunks_cons (parse : List Char → Option AnthropicStreamEvent)
    (st : ConverterState) (c : List Char) (cs : List (List Char)) :
    processChunks parse st (c :: cs)
      = ((processChunks parse (processChunk parse st c).1 cs).1,
         (processChunk parse st c).2
           ++ (processChunks parse (processChunk parse st c).1 cs).2) := rfl

/-- Feeding chunks one at a time equals feeding their concatenation at
once. -/
lemma processChunks_cons_eq (parse : List Char → Option AnthropicStreamEvent) :
    ∀ (cs : List (List Char)) (st : ConverterState) (c : List Char),
      processChunks parse st (c :: cs) = processChunk parse st (c ++ cs.flatten) := by
  intro cs
  induction cs with
  | nil =>
    intro st c
    simp [processChunks]
  | cons c' cs ih =>
    intro st c
    rw [processChunks_cons, ih]
    rw [show (c' :: cs).flatten = c' ++ cs.flatten from by simp]
    rw [processChunk_append parse st c (c' ++ cs.flatten)]

/-- The trailing fragment never contains a newline. -/
lemma splitCompleteRec_buf_no_nl (cs : List Char) :
    '\n' ∉ (splitCompleteRec cs).2 := by
  induction cs with
  | nil => simp [splitCompleteRec]
  | cons c rest ih =>
    by_cases hc : c = '\n'
    · subst hc
      rw [splitCompleteRec_cons_nl]
      exact ih
    · rcases h : splitCompleteRec rest with ⟨ls, buf⟩
      rw [h] at ih
      cases ls with
      | nil =>
        rw [splitCompleteRec_cons_mt rest buf hc h]
        simp only [List.mem_cons, not_or]
        exact ⟨fun he => hc he.symm, ih⟩
      | cons l ls' =>
        rw [splitCompleteRec_cons_ln rest l ls' buf hc h]
        exact ih

/-- C1: for every way of splitting an upstream byte stream into chunks,
feeding the chunks in order to `processChunk` against one fresh converter
state yields exactly the state and concatenated results of one call on the
whole stream; the line buffer always holds the trailing fragment not
terminated by a newline (which never contains a newline), so only fully
terminated lines are parsed. -/
theorem processChunk_chunk_boundary_independence
    (parse : List Char → Option AnthropicStreamEvent) (om : Option String)
    (cs : List (List Char)) :
    processChunks parse (createConverterState om) cs
      = processChunk parse (createConverterState om) cs.flatten ∧
    (∀ (st : ConverterState) (chunk : List Char),
        (processChunk parse st chunk).1.lineBuffer
          = (splitCompleteRec (st.lineBuffer ++ chunk)).2) ∧
    (∀ full : List Char, '\n' ∉ (splitCompleteRec full).2) := by
  refine ⟨?_, ?_, splitCompleteRec_buf_no_nl⟩
  · cases cs with
    | nil =>
      simp only [processChunks, List.flatten_nil]
      rw [processChunk_eq_rec]
      rfl
    | cons c cs' =>
      rw [processChunks_cons_eq]
      rw [show (c :: cs').flatten = c ++ cs'.flatten from by simp]
  · intro st chunk
    rw [processChunk_eq_rec]

/-! ## Theorems: totality and per-line skipping (C9) -/

/-- Lines the dispatch skips: empty after trimming, event lines, lines that
are not `data: ` lines containing a brace, and data lines whose payload
fails to parse. -/
def lineSkippable (parse : List Char → Option AnthropicStreamEvent)
    (line : List Char) : Bool :=
  let t := jsTrimList line
  if t = [] then true
  else if "event:".data.isPrefixOf t then true
  else if "data: ".data.isPrefixOf t ∧ t.contains '\x7b' then
    (parse (t.drop 6)).isNone
  else true

/-- A skippable line leaves the state unchanged and emits nothing. -/
lemma handleLine_of_skippable (parse : List Char → Option AnthropicStreamEvent)
    (line : List Char) (h : lineSkippable parse line = true) (st : ConvCore) :
    handleLine parse st line = (st, []) := by
  unfold handleLine
  unfold lineSkippable at h
  by_cases h1 : jsTrimList line = []
  · simp [h1]
  · by_cases h2 : "event:".data.isPrefixOf (jsTrimList line) = true
    · simp [h1, h2]
    · by_cases h3 : "data: ".data.isPrefixOf (jsTrimList line) = true
        ∧ (jsTrimList line).contains '\x7b' = true
      · simp only [h1, h2, h3, if_false, if_true] at h ⊢
        rcases hp : parse ((jsTrimList line).drop 6) with _ | ev
        · simp [h1, h3, hp]
        · rw [hp] at h
          simp [h1, h3] at h
      · simp [h1, h2]
        intro hA hB
        exact absurd ⟨by simpa using hA, by simpa using hB⟩ h3

/-- A `content_block_delta` envelope without a `delta` payload falls
through every dispatch case without emitting output. -/
lemma handleEvent_delta_none (st : ConvCore) (e : AnthropicStreamEvent)
    (he : e.type = "content_block_delta") (hd : e.delta = none) :
    (handleEvent st e).2 = [] := by
  simp [handleEvent, transformToOpenAI, he, hd, truthyStr]

/-- A `message_start` whose message lacks `id` makes the transformation
throw (`data.message.id.replace` on `undefined`, line 585), modelled as
`none`; the throw happens before any write of the transformation, so no
state of its own survives. -/
lemma transformToOpenAI_missing_id (st : ConvCore) (d : AnthropicStreamEvent)
    (msg : MessagePayload) (ht : d.type = "message_start")
    (hm : d.message = some msg) (hid : msg.id = none) :
    transformToOpenAI st d = none := by
  unfold transformToOpenAI
  simp [ht, hm, hid]

/-- Dispatch of a `message_start` whose message lacks `id`: `updateMetrics`
(line 424) has already mutated the counters when `transformToOpenAI`
(line 427) throws, and the per-line catch then suppresses the line's
output — the state keeps the metrics mutation, nothing is emitted. -/
lemma handleEvent_missing_id (st : ConvCore) (d : AnthropicStreamEvent)
    (msg : MessagePayload) (ht : d.type = "message_start")
    (hm : d.message = some msg) (hid : msg.id = none) :
    handleEvent st d = (metricsUpd st d, []) := by
  unfold handleEvent
  dsimp only
  rw [transformToOpenAI_missing_id _ d msg ht hm hid]
  simp [ht, metricsUpd]

/-- A data line carrying such a payload: parse succeeds, the dispatch runs,
the metrics mutation survives and no output is emitted. -/
lemma handleLine_throwing (parse : List Char → Option AnthropicStreamEvent)
    (st : ConvCore) (line : List Char) (d : AnthropicStreamEvent)
    (msg : MessagePayload)
    (hpre : "data: ".data.isPrefixOf (jsTrimList line) = true)
    (hbr : (jsTrimList line).contains '\x7b' = true)
    (hp : parse ((jsTrimList line).drop 6) = some d)
    (ht : d.type = "message_start") (hm : d.message = some msg)
    (hid : msg.id = none) :
    handleLine parse st line = (metricsUpd st d, []) := by
  have hne : jsTrimList line ≠ [] := by
    intro h0
    rw [h0] at hpre
    simp [List.isPrefixOf] at hpre
  have hnev : ¬ ("event:".data.isPrefixOf (jsTrimList line) = true) := by
    intro hev
    have h1 : "data: ".data <+: jsTrimList line := by
      simpa [List.isPrefixOf_iff_prefix] using hpre
    have h2 : "event:".data <+: jsTrimList line := by
      simpa [List.isPrefixOf_iff_prefix] using hev
    rcases h1 with ⟨t1, he1⟩
    rcases h2 with ⟨t2, he2⟩
    rw [← he1] at he2
    rw [show "data: ".data = ['d', 'a', 't', 'a', ':', ' '] from rfl,
      show "event:".data = ['e', 'v', 'e', 'n', 't', ':'] from rfl] at he2
    simp only [List.cons_append, List.cons.injEq] at he2
    exact absurd he2.1 (by decide)
  unfold handleLine
  dsimp only
  rw [if_neg hne, if_neg hnev, if_pos ⟨hpre, hbr⟩, hp]
  exact handleEvent_missing_id st d msg ht hm hid

/-- A line that emits no output from any state splits the fold: the lines
before it are processed as before, the lines after it are processed from
the state the middle line leaves, and the overall output is the
concatenation of the two surrounding outputs. -/
lemma foldLines_output_free_middle (parse : List Char → Option AnthropicStreamEvent)
    (tline : List Char)
    (hout : ∀ st', (handleLine parse st' tline).2 = []) :
    ∀ (pre post : List (List Char)) (st : ConvCore),
      (foldLines parse st (pre ++ tline :: post)).2
        = (foldLines parse st pre).2
          ++ (foldLines parse
               (handleLine parse (foldLines parse st pre).1 tline).1 post).2 := by
  intro pre
  induction pre with
  | nil =>
    intro post st
    simp [foldLines, hout]
  | cons p ps ih =>
    intro post st
    simp only [List.cons_append, foldLines, List.append_eq]
    rw [ih]
    simp [List.append_assoc]

/-- C9: the per-line dispatch is total. An empty line, an `event:` line, a
non-`data: ` line, or a data line whose payload fails `JSON.parse` leaves
the state unchanged and emits nothing, and removing it does not change the
processing of the surrounding lines. A data line whose parsed envelope
lacks a field the handler dereferences — a `message_start` whose message
has no `id` — makes the handler throw after `updateMetrics` already ran:
the per-line catch suppresses that line's output (the metrics mutation
survives in the state). Every line that emits no output still lets the
surrounding lines be processed, with the overall output the concatenation
of their outputs. An envelope lacking the fields its dispatch case merely
reads (a `content_block_delta` without `delta`) emits nothing. -/
theorem processChunk_skips_bad_lines (parse : List Char → Option AnthropicStreamEvent)
    (st : ConvCore) (line : List Char) (pre post : List (List Char))
    (h : lineSkippable parse line = true) :
    handleLine parse st line = (st, []) ∧
    foldLines parse st (pre ++ line :: post) = foldLines parse st (pre ++ post) ∧
    (∀ (st' : ConvCore) (tline : List Char) (d : AnthropicStreamEvent)
        (msg : MessagePayload),
        "data: ".data.isPrefixOf (jsTrimList tline) = true →
        (jsTrimList tline).contains '\x7b' = true →
        parse ((jsTrimList tline).drop 6) = some d →
        d.type = "message_start" → d.message = some msg → msg.id = none →
        handleLine parse st' tline = (metricsUpd st' d, [])) ∧
    (∀ (tline : List Char) (pre2 post2 : List (List Char)) (st2 : ConvCore),
        (∀ st', (handleLine parse st' tline).2 = []) →
        (foldLines parse st2 (pre2 ++ tline :: post2)).2
          = (foldLines parse st2 pre2).2
            ++ (foldLines parse
                 (handleLine parse (foldLines parse st2 pre2).1 tline).1
                 post2).2) ∧
    (∀ (st' : ConvCore) (e : AnthropicStreamEvent),
        e.type = "content_block_delta" → e.delta = none →
        (handleEvent st' e).2 = []) := by
  refine ⟨handleLine_of_skippable parse line h st, ?_,
    fun st' tline d msg hpre hbr hp ht hm hid =>
      handleLine_throwing parse st' tline d msg hpre hbr hp ht hm hid,
    fun tline pre2 post2 st2 hout =>
      foldLines_output_free_middle parse tline hout pre2 post2 st2,
    fun st' e he hd => handleEvent_delta_none st' e he hd⟩
  induction pre generalizing st with
  | nil =>
    simp only [List.nil_append, foldLines,
      handleLine_of_skippable parse line h st]
  | cons p ps ih =>
    simp only [List.cons_append, foldLines, List.append_eq]
    rw [ih]

/-! ## Theorems: model echo (C6) -/

/-- `some m || d` is `m` for non-empty `m`. -/
lemma jsOrStr_of_ne {m : String} (hm : m ≠ "") (d : String) :
    jsOrStr (some m) d = m := by
  simp [jsOrStr, hm]

/-- The transformation, when it returns, never writes `originalModel`. -/
lemma transformToOpenAI_originalModel (st : ConvCore) (d : AnthropicStreamEvent) :
    ∀ res, transformToOpenAI st d = some res →
      res.1.originalModel = st.originalModel := by
  intro res hres
  unfold transformToOpenAI at hres
  revert hres
  repeat' split
  all_goals
    rcases hmg : mapGet (d.index.getD 0) st.toolCallsTracker with _ | tc <;>
      simp [hmg] <;> intro hres <;> simp [← hres]

/-- The event dispatch never writes `originalModel`. -/
lemma handleEvent_originalModel (st : ConvCore) (d : AnthropicStreamEvent) :
    (handleEvent st d).1.originalModel = st.originalModel := by
  unfold handleEvent
  dsimp only
  rcases htr : transformToOpenAI
      { st with metricsData := updateMetrics st.metricsData d } d with _ | transformed
  all_goals simp only [htr]
  · repeat' split
    all_goals simp
  · have hom := transformToOpenAI_originalModel _ _ transformed htr
    repeat' split
    all_goals simp_all

/-- Every chunk built by the transformation carries the original model. -/
lemma transformToOpenAI_chunk_model (st : ConvCore) (d : AnthropicStreamEvent)
    (m : String) (h : st.originalModel = some m) (hm : m ≠ "") :
    ∀ res c, transformToOpenAI st d = some res → res.2 = some c →
      c.model = m := by
  intro res c hres
  unfold transformToOpenAI at hres
  have hmodel : chunkModelOf st = m := by
    simp [chunkModelOf, h, jsOrStr_of_ne hm]
  revert hres
  repeat' split
  all_goals
    rcases hmg : mapGet (d.index.getD 0) st.toolCallsTracker with _ | tc <;>
      simp [hmg, mkRoleChunk, mkToolStartChunk, mkToolArgsChunk, mkTextChunk,
        mkFinishChunk, hmodel, h, jsOrStr_of_ne hm] <;> intro hres <;>
      simp [← hres] <;> intro hc <;> simp [← hc]

/-- The usage chunk carries the original model. -/
lemma createUsageChunk_model (st : ConvCore) (m : String)
    (h : st.originalModel = some m) (hm : m ≠ "") :
    ∀ u, createUsageChunk st = some u → u.model = m := by
  intro u hu
  unfold createUsageChunk at hu
  have hmodel : chunkModelOf st = m := by
    simp [chunkModelOf, h, jsOrStr_of_ne hm]
  revert hu
  split
  · intro hu
    cases hu
  · intro hu
    injection hu with hu2
    rw [← hu2]
    exact hmodel

/-- Every chunk emitted by the event dispatch carries the original model. -/
lemma handleEvent_model_echo (st : ConvCore) (d : AnthropicStreamEvent)
    (m : String) (h : st.originalModel = some m) (hm : m ≠ "") :
    ∀ r ∈ (handleEvent st d).2, ∀ c, r = ProcessResult.chunk c → c.model = m := by
  intro r hr c hc
  subst hc
  unfold handleEvent at hr
  by_cases h1 : d.type = "ping"
  · rw [if_pos h1] at hr
    cases hr
  rw [if_neg h1] at hr
  by_cases h2 : d.type = "content_block_start" ∧
      (d.content_block.map (·.type) = some "thinking" ∨
       d.content_block.map (·.type) = some "redacted_thinking")
  · rw [if_pos h2] at hr
    cases hr
  rw [if_neg h2] at hr
  by_cases h3 : d.type = "content_block_delta" ∧
      truthyStr (d.delta.bind (·.thinking)) = true
  · rw [if_pos h3] at hr
    cases hr
  rw [if_neg h3] at hr
  by_cases h4 : d.type = "content_block_delta" ∧
      truthyStr (d.delta.bind (·.signature)) = true
  · rw [if_pos h4] at hr
    cases hr
  rw [if_neg h4] at hr
  by_cases h5 : d.type = "content_block_stop"
  · rw [if_pos h5] at hr
    cases hr
  rw [if_neg h5] at hr
  by_cases h6 : d.type = "content_block_start" ∧
      d.content_block.map (·.type) = some "text"
  · rw [if_pos h6] at hr
    cases hr
  rw [if_neg h6] at hr
  dsimp only at hr
  have hstM : ({ st with metricsData := updateMetrics st.metricsData d } :
      ConvCore).originalModel = some m := h
  rcases htr : transformToOpenAI
      { st with metricsData := updateMetrics st.metricsData d } d with _ | transformed
  · rw [htr] at hr
    cases hr
  · rw [htr] at hr
    dsimp only at hr
    have htrm := transformToOpenAI_chunk_model
      { st with metricsData := updateMetrics st.metricsData d } d m hstM hm
      transformed
    have hom := transformToOpenAI_originalModel _ _ transformed htr
    have hus := createUsageChunk_model transformed.1 m (by rw [hom]; exact hstM) hm
    by_cases h7 : d.type = "message_stop"
    · rw [if_pos h7] at hr
      rcases ht2 : transformed.2 with _ | c' <;> rw [ht2] at hr <;>
        rcases hu : createUsageChunk transformed.1 with _ | u <;> rw [hu] at hr
      · simp at hr
      · simp at hr
        rw [hr]
        exact hus u hu
      · simp at hr
        rw [hr]
        exact htrm c' htr ht2
      · simp at hr
        rcases hr with hr | hr
        · rw [hr]
          exact htrm c' htr ht2
        · rw [hr]
          exact hus u hu
    · rw [if_neg h7] at hr
      rcases ht2 : transformed.2 with _ | c' <;> rw [ht2] at hr
      · cases hr
      · simp at hr
        rw [hr]
        exact htrm c' htr ht2

/-- The line dispatch never writes `originalModel`. -/
lemma handleLine_originalModel (parse : List Char → Option AnthropicStreamEvent)
    (st : ConvCore) (line : List Char) :
    (handleLine parse st line).1.originalModel = st.originalModel := by
  unfold handleLine
  dsimp only
  repeat' split
  all_goals simp [handleEvent_originalModel]

/-- Every chunk emitted for one line carries the original model. -/
lemma handleLine_model_echo (parse : List Char → Option AnthropicStreamEvent)
    (st : ConvCore) (line : List Char) (m : String)
    (h : st.originalModel = some m) (hm : m ≠ "") :
    ∀ r ∈ (handleLine parse st line).2, ∀ c, r = ProcessResult.chunk c →
      c.model = m := by
  intro r hr c hc
  unfold handleLine at hr
  dsimp only at hr
  revert hr
  repeat' split
  all_goals intro hr
  all_goals try cases hr
  exact handleEvent_model_echo st _ m h hm r hr c hc

/-- Processing lines never writes `originalModel`. -/
lemma foldLines_originalModel (parse : List Char → Option AnthropicStreamEvent)
    (ls : List (List Char)) (st : ConvCore) :
    (foldLines parse st ls).1.originalModel = st.originalModel := by
  induction ls generalizing st with
  | nil => rfl
  | cons l ls ih =>
    simp only [foldLines]
    rw [ih, handleLine_originalModel]

/-- Every chunk emitted for a line sequence carries the original model. -/
lemma foldLines_model_echo (parse : List Char → Option AnthropicStreamEvent)
    (ls : List (List Char)) (st : ConvCore) (m : String)
    (h : st.originalModel = some m) (hm : m ≠ "") :
    ∀ r ∈ (foldLines parse st ls).2, ∀ c, r = ProcessResult.chunk c →
      c.model = m := by
  induction ls generalizing st with
  | nil => intro r hr; cases hr
  | cons l ls ih =>
    intro r hr c hc
    simp only [foldLines, List.mem_append] at hr
    rcases hr with hr | hr
    · exact handleLine_model_echo parse st l m h hm r hr c hc
    · exact ih (handleLine parse st l).1
        (by rw [handleLine_originalModel]; exact h) r hr c hc

/-- `processChunk` never writes `originalModel`. -/
lemma processChunk_originalModel (parse : List Char → Option AnthropicStreamEvent)
    (st : ConverterState) (chunk : List Char) :
    (processChunk parse st chunk).1.core.originalModel
      = st.core.originalModel := by
  rw [processChunk_eq_rec]
  exact foldLines_originalModel parse _ st.core

/-- Every chunk emitted by `processChunk` carries the original model. -/
lemma processChunk_model_echo (parse : List Char → Option AnthropicStreamEvent)
    (st : ConverterState) (chunk : List Char) (m : String)
    (h : st.core.originalModel = some m) (hm : m ≠ "") :
    ∀ r ∈ (processChunk parse st chunk).2, ∀ c, r = ProcessResult.chunk c →
      c.model = m := by
  rw [processChunk_eq_rec]
  exact foldLines_model_echo parse _ st.core m h hm

/-- C6: for a converter state created with a non-empty original
client-requested model string, every chunk emitted over any sequence of
upstream byte chunks carries exactly that original string in its `model`
field (never the upstream-reported name). -/
theorem processChunks_model_echo (parse : List Char → Option AnthropicStreamEvent)
    (m : String) (cs : List (List Char)) (hm : m ≠ "") :
    ∀ r ∈ (processChunks parse (createConverterState (some m)) cs).2,
      ∀ c, r = ProcessResult.chunk c → c.model = m := by
  have main : ∀ (cks : List (List Char)) (st : ConverterState),
      st.core.originalModel = some m →
      ∀ r ∈ (processChunks parse st cks).2, ∀ c, r = ProcessResult.chunk c →
        c.model = m := by
    intro cks
    induction cks with
    | nil =>
      intro st h r hr
      cases hr
    | cons ck cks ih =>
      intro st h r hr c hc
      rw [processChunks_cons] at hr
      simp only [List.mem_append] at hr
      rcases hr with hr | hr
      · exact processChunk_model_echo parse st ck m h hm r hr c hc
      · exact ih (processChunk parse st ck).1
          (by rw [processChunk_originalModel]; exact h) r hr c hc
  intro r hr c hc
  refine main cs (createConverterState (some m)) ?_ r hr c hc
  simp [createConverterState, truthyStr, hm]

/-- A parse function producing a `message_start` envelope, for the C6
witness. -/
def echoWitnessParse : List Char → Option AnthropicStreamEvent :=
  fun _ => some
    { type := "message_start",
      message := some
        { id := some "msg_A", model := some "claude-sonnet-4-5",
          usage := none, stop_reason := none },
      content_block := none, delta := none, index := none, model := none,
      stop_reason := none, signature := none, usage := none }

/-- Witness for the C6 theorem on a concrete stream: the upstream reports
model "claude-sonnet-4-5" but the emitted chunk echoes the client's
"claude-4-sonnet-high". -/
theorem processChunks_model_echo_witness :
    ("claude-4-sonnet-high" : String) ≠ "" ∧
    (processChunks echoWitnessParse
        (createConverterState (some "claude-4-sonnet-high"))
        [("data: \x7b\x7d\n").data]).2
      = [ProcessResult.chunk (mkRoleChunk "chatcmpl-A" "claude-4-sonnet-high")] ∧
    (mkRoleChunk "chatcmpl-A" "claude-4-sonnet-high").model
      = "claude-4-sonnet-high" := by
  have hm : ("claude-4-sonnet-high" : String) ≠ "" := by decide
  have hout : (processChunks echoWitnessParse
      (createConverterState (some "claude-4-sonnet-high"))
      [("data: \x7b\x7d\n").data]).2
      = [ProcessResult.chunk (mkRoleChunk "chatcmpl-A" "claude-4-sonnet-high")] := by
    rfl
  refine ⟨hm, hout, ?_⟩
  refine processChunks_model_echo echoWitnessParse "claude-4-sonnet-high"
    [("data: \x7b\x7d\n").data] hm
    (ProcessResult.chunk (mkRoleChunk "chatcmpl-A" "claude-4-sonnet-high")) ?_ _ rfl
  rw [hout]
  exact List.mem_singleton.mpr rfl

/-! ## Theorems: terminal ordering (C5) -/

/-- Processing concatenated event lists composes. -/
lemma foldEvents_append (st : ConvCore) (l1 l2 : List AnthropicStreamEvent) :
    foldEvents st (l1 ++ l2)
      = ((foldEvents (foldEvents st l1).1 l2).1,
         (foldEvents st l1).2 ++ (foldEvents (foldEvents st l1).1 l2).2) := by
  induction l1 generalizing st with
  | nil => simp [foldEvents]
  | cons d ds ih => simp [foldEvents, ih]

/-- `message_stop` matches no transformation case. -/
lemma transformToOpenAI_stop (st : ConvCore) (d : AnthropicStreamEvent)
    (h : d.type = "message_stop") : transformToOpenAI st d = some (st, none) := by
  unfold transformToOpenAI
  simp [h]

/-- Dispatch of `message_stop`: update metrics, then emit the usage chunk
(when the token counters are not both zero) followed by the done marker. -/
lemma handleEvent_stop (st : ConvCore) (d : AnthropicStreamEvent)
    (h : d.type = "message_stop") :
    handleEvent st d
      = ({ st with metricsData := updateMetrics st.metricsData d },
         (match createUsageChunk
              { st with metricsData := updateMetrics st.metricsData d } with
          | some u => [ProcessResult.chunk u]
          | none => []) ++ [ProcessResult.done]) := by
  unfold handleEvent
  simp [h, transformToOpenAI_stop _ _ h]

/-- Only `message_stop` emits the done marker. -/
lemma handleEvent_no_done (st : ConvCore) (d : AnthropicStreamEvent)
    (h : d.type ≠ "message_stop") :
    ProcessResult.done ∉ (handleEvent st d).2 := by
  unfold handleEvent
  dsimp only
  repeat' split
  all_goals simp_all

/-- Chunks built by the transformation never carry a usage object. -/
lemma transformToOpenAI_chunk_usage (st : ConvCore) (d : AnthropicStreamEvent) :
    ∀ res c, transformToOpenAI st d = some res → res.2 = some c →
      c.usage = none := by
  intro res c hres
  unfold transformToOpenAI at hres
  revert hres
  repeat' split
  all_goals
    rcases hmg : mapGet (d.index.getD 0) st.toolCallsTracker with _ | tc <;>
      simp [hmg, mkRoleChunk, mkToolStartChunk, mkToolArgsChunk, mkTextChunk,
        mkFinishChunk] <;> intro hres <;> simp [← hres] <;> intro hc <;>
      simp [← hc]

/-- Chunks emitted by non-stop events never carry a usage object. -/
lemma handleEvent_chunk_usage (st : ConvCore) (d : AnthropicStreamEvent)
    (h : d.type ≠ "message_stop") :
    ∀ r ∈ (handleEvent st d).2, ∀ c, r = ProcessResult.chunk c →
      c.usage = none := by
  intro r hr c hc
  subst hc
  unfold handleEvent at hr
  by_cases h1 : d.type = "ping"
  · rw [if_pos h1] at hr
    cases hr
  rw [if_neg h1] at hr
  by_cases h2 : d.type = "content_block_start" ∧
      (d.content_block.map (·.type) = some "thinking" ∨
       d.content_block.map (·.type) = some "redacted_thinking")
  · rw [if_pos h2] at hr
    cases hr
  rw [if_neg h2] at hr
  by_cases h3 : d.type = "content_block_delta" ∧
      truthyStr (d.delta.bind (·.thinking)) = true
  · rw [if_pos h3] at hr
    cases hr
  rw [if_neg h3] at hr
  by_cases h4 : d.type = "content_block_delta" ∧
      truthyStr (d.delta.bind (·.signature)) = true
  · rw [if_pos h4] at hr
    cases hr
  rw [if_neg h4] at hr
  by_cases h5 : d.type = "content_block_stop"
  · rw [if_pos h5] at hr
    cases hr
  rw [if_neg h5] at hr
  by_cases h6 : d.type = "content_block_start" ∧
      d.content_block.map (·.type) = some "text"
  · rw [if_pos h6] at hr
    cases hr
  rw [if_neg h6] at hr
  dsimp only at hr
  rcases htr : transformToOpenAI
      { st with metricsData := updateMetrics st.metricsData d } d with _ | transformed
  · rw [htr] at hr
    cases hr
  · rw [htr] at hr
    dsimp only at hr
    rw [if_neg h] at hr
    rcases ht2 : transformed.2 with _ | c' <;> rw [ht2] at hr
    · cases hr
    · simp at hr
      rw [hr]
      exact transformToOpenAI_chunk_usage _ d transformed c' htr ht2

/-- A stream without `message_stop` never emits the done marker. -/
lemma foldEvents_no_done (st : ConvCore) (es : List AnthropicStreamEvent)
    (hes : ∀ x ∈ es, x.type ≠ "message_stop") :
    ProcessResult.done ∉ (foldEvents st es).2 := by
  induction es generalizing st with
  | nil => simp [foldEvents]
  | cons d ds ih =>
    simp only [foldEvents, List.mem_append, not_or]
    refine ⟨handleEvent_no_done st d (hes d (by simp)), ?_⟩
    exact ih (handleEvent st d).1 (fun x hx => hes x (by simp [hx]))

/-- A stream without `message_stop` never emits a usage object. -/
lemma foldEvents_chunk_usage (st : ConvCore) (es : List AnthropicStreamEvent)
    (hes : ∀ x ∈ es, x.type ≠ "message_stop") :
    ∀ r ∈ (foldEvents st es).2, ∀ c, r = ProcessResult.chunk c →
      c.usage = none := by
  induction es generalizing st with
  | nil =>
    intro r hr
    cases hr
  | cons d ds ih =>
    intro r hr c hc
    simp only [foldEvents, List.mem_append] at hr
    rcases hr with hr | hr
    · exact handleEvent_chunk_usage st d (hes d (by simp)) r hr c hc
    · exact ih (handleEvent st d).1 (fun x hx => hes x (by simp [hx])) r hr c hc

/-- C5: for a stream whose final event is its only `message_stop`, the done
marker is emitted exactly once and last; a usage chunk with empty delta and
null finish_reason immediately precedes it when the aggregated token
counters are not both zero, no usage chunk is produced when they are, and
no earlier chunk carries a usage object. -/
theorem foldEvents_terminal_order (st : ConvCore)
    (es : List AnthropicStreamEvent) (e : AnthropicStreamEvent)
    (hes : ∀ x ∈ es, x.type ≠ "message_stop") (he : e.type = "message_stop") :
    (foldEvents st (es ++ [e])).2
      = (foldEvents st es).2
        ++ (match createUsageChunk (foldEvents st (es ++ [e])).1 with
            | some u => [ProcessResult.chunk u]
            | none => [])
        ++ [ProcessResult.done] ∧
    ProcessResult.done ∉ (foldEvents st es).2 ∧
    (∀ r ∈ (foldEvents st es).2, ∀ c, r = ProcessResult.chunk c →
        c.usage = none) ∧
    (∀ u, createUsageChunk (foldEvents st (es ++ [e])).1 = some u →
        u.choices = [⟨0, emptyDelta, none⟩] ∧ u.usage.isSome = true) ∧
    ((foldEvents st (es ++ [e])).1.metricsData.input_tokens = 0 ∧
        (foldEvents st (es ++ [e])).1.metricsData.output_tokens = 0 →
      createUsageChunk (foldEvents st (es ++ [e])).1 = none) ∧
    (foldEvents st (es ++ [e])).2.getLast? = some ProcessResult.done ∧
    (foldEvents st (es ++ [e])).2.count ProcessResult.done = 1 := by
  have key : foldEvents st (es ++ [e])
      = (metricsUpd (foldEvents st es).1 e,
         (foldEvents st es).2
           ++ ((match createUsageChunk (metricsUpd (foldEvents st es).1 e) with
                | some u => [ProcessResult.chunk u]
                | none => []) ++ [ProcessResult.done])) := by
    rw [foldEvents_append]
    simp only [foldEvents, handleEvent_stop _ e he, List.append_nil, metricsUpd]
  have hdone := foldEvents_no_done st es hes
  refine ⟨?_, hdone, foldEvents_chunk_usage st es hes, ?_, ?_, ?_, ?_⟩
  · rw [key]
    simp [List.append_assoc]
  · intro u hu
    unfold createUsageChunk at hu
    revert hu
    split
    · intro hu
      cases hu
    · intro hu
      injection hu with hu2
      rw [← hu2]
      exact ⟨rfl, rfl⟩
  · rintro ⟨hz1, hz2⟩
    unfold createUsageChunk
    rw [if_pos ⟨hz1, hz2⟩]
  · rw [key]
    rw [show (foldEvents st es).2
        ++ ((match createUsageChunk (metricsUpd (foldEvents st es).1 e) with
             | some u => [ProcessResult.chunk u]
             | none => []) ++ [ProcessResult.done])
        = ((foldEvents st es).2
            ++ (match createUsageChunk (metricsUpd (foldEvents st es).1 e) with
                | some u => [ProcessResult.chunk u]
                | none => [])) ++ [ProcessResult.done]
      from (List.append_assoc _ _ _).symm]
    exact List.getLast?_concat _
  · rw [key]
    simp only [List.count_append]
    have h0 : (foldEvents st es).2.count ProcessResult.done = 0 :=
      List.count_eq_zero.mpr hdone
    rw [h0]
    rcases hcu : createUsageChunk (metricsUpd (foldEvents st es).1 e) with _ | u
    · simp
    · have h1 : ([ProcessResult.chunk u] : List ProcessResult).count
          ProcessResult.done = 0 := List.count_eq_zero.mpr (by simp)
      simp [h1]

/-- `message_start` event carrying usage, for the C5 witness. -/
def evStartW : AnthropicStreamEvent :=
  { type := "message_start",
    message := some
      { id := some "msg_A", model := some "claude-sonnet-4-5",
        usage := some
          { input_tokens := 10, output_tokens := 3,
            cache_creation_input_tokens := none,
            cache_read_input_tokens := some 4 },
        stop_reason := none },
    content_block := none, delta := none, index := none, model := none,
    stop_reason := none, signature := none, usage := none }

/-- Bare `message_stop` event, for the C5 witness. -/
def evStopW : AnthropicStreamEvent :=
  { type := "message_stop", message := none, content_block := none,
    delta := none, index := none, model := none, stop_reason := none,
    signature := none, usage := none }

/-- Witness for the C5 theorem on a concrete two-event stream. -/
theorem foldEvents_terminal_order_witness :
    (∀ x ∈ [evStartW], x.type ≠ "message_stop") ∧
    evStopW.type = "message_stop" ∧
    (foldEvents (createConverterState (some "claude-4-sonnet-high")).core
        ([evStartW] ++ [evStopW])).2.getLast? = some ProcessResult.done ∧
    (foldEvents (createConverterState (some "claude-4-sonnet-high")).core
        ([evStartW] ++ [evStopW])).2.count ProcessResult.done = 1 := by
  have h1 : ∀ x ∈ [evStartW], x.type ≠ "message_stop" := by
    intro x hx
    simp only [List.mem_singleton] at hx
    subst hx
    decide
  have h2 : evStopW.type = "message_stop" := rfl
  have r := foldEvents_terminal_order
    (createConverterState (some "claude-4-sonnet-high")).core
    [evStartW] evStopW h1 h2
  exact ⟨h1, h2, r.2.2.2.2.2.1, r.2.2.2.2.2.2⟩

/-! ## Theorems: tool-argument accumulation (C4) -/

/-- The per-delta tool-argument step of the transformation: what is emitted
and the tracker's new accumulated arguments. -/
def toolArgStep (acc pj : String) : String × String :=
  if acc ≠ "" ∧ strStartsWith pj acc = true then (strDropN pj (strLen acc), pj)
  else (pj, acc ++ pj)

/-- Concatenation of a list of strings. -/
def strJoin : List String → String
  | [] => ""
  | s :: rest => s ++ strJoin rest

/-- All emitted argument fragments over a delta sequence. -/
def emitAll (acc : String) : List String → List String
  | [] => []
  | pj :: rest => (toolArgStep acc pj).1 :: emitAll (toolArgStep acc pj).2 rest

/-- The tracker's accumulated arguments after a delta sequence. -/
def accAll (acc : String) : List String → String
  | [] => acc
  | pj :: rest => accAll (toolArgStep acc pj).2 rest

/-- Each step extends the accumulator by exactly what it emits. -/
lemma toolArgStep_acc_append (acc pj : String) :
    (toolArgStep acc pj).2 = acc ++ (toolArgStep acc pj).1 := by
  unfold toolArgStep
  split
  · rename_i hcond
    obtain ⟨hne, hpre⟩ := hcond
    have h1 : acc.data <+: pj.data := List.isPrefixOf_iff_prefix.mp hpre
    have h2 : acc.data ++ pj.data.drop acc.data.length = pj.data :=
      List.prefix_iff_eq_append.mp h1
    show pj = acc ++ strDropN pj (strLen acc)
    have h3 : (acc ++ strDropN pj (strLen acc)).data = pj.data := by
      rw [String.data_append]
      exact h2
    have h4 : String.mk ((acc ++ strDropN pj (strLen acc)).data)
        = String.mk pj.data := congrArg String.mk h3
    exact h4.symm
  · rfl

/-- The accumulator equals the initial value plus everything emitted. -/
lemma accAll_eq_join : ∀ (pjs : List String) (acc : String),
    accAll acc pjs = acc ++ strJoin (emitAll acc pjs) := by
  intro pjs
  induction pjs with
  | nil =>
    intro acc
    simp [accAll, emitAll, strJoin]
  | cons pj rest ih =>
    intro acc
    show accAll (toolArgStep acc pj).2 rest
      = acc ++ ((toolArgStep acc pj).1 ++ strJoin (emitAll (toolArgStep acc pj).2 rest))
    rw [ih (toolArgStep acc pj).2, toolArgStep_acc_append]
    simp [String.append_assoc]

/-- Reading back a key just set. -/
lemma mapGet_mapSet_self (k : Nat) (v : ToolCallTracker)
    (tr : List (Nat × ToolCallTracker)) :
    mapGet k (mapSet k v tr) = some v := by
  induction tr with
  | nil => simp [mapGet, mapSet]
  | cons p rest ih =>
    obtain ⟨k', v'⟩ := p
    by_cases hk : k' = k
    · simp [mapGet, mapSet, hk]
    · simp [mapGet, mapSet, hk, ih]

/-- Updating the tool-call tracker map of a state. -/
def setTracker (st : ConvCore) (k : Nat) (v : ToolCallTracker) : ConvCore :=
  { st with toolCallsTracker := mapSet k v st.toolCallsTracker }

/-- Dispatch of a `tool_use` `content_block_start`: register the tracker
with empty arguments and emit the tool-start chunk. -/
lemma handleEvent_tool_use_start (st : ConvCore) (d : AnthropicStreamEvent)
    (cb : ContentBlockPayload)
    (htype : d.type = "content_block_start") (hcb : d.content_block = some cb)
    (hcbt : cb.type = "tool_use") :
    handleEvent st d
      = (setTracker (metricsUpd st d) (d.index.getD 0)
           ⟨cb.id.getD "", cb.name.getD "", ""⟩,
         [ProcessResult.chunk
            (mkToolStartChunk (metricsUpd st d) (d.index.getD 0) cb)]) := by
  simp [handleEvent, transformToOpenAI, htype, hcb, hcbt, metricsUpd, setTracker]

/-- Dispatch of a `partial_json` delta with a registered tracker: emit the
step's fragment and store the step's accumulator. -/
lemma handleEvent_partial_json (st : ConvCore) (d : AnthropicStreamEvent)
    (pj : String) (tc : ToolCallTracker)
    (htype : d.type = "content_block_delta")
    (hpj : d.delta.bind (·.partial_json) = some pj) (hne : pj ≠ "")
    (hth : truthyStr (d.delta.bind (·.thinking)) = false)
    (hsig : truthyStr (d.delta.bind (·.signature)) = false)
    (htc : mapGet (d.index.getD 0) st.toolCallsTracker = some tc) :
    handleEvent st d
      = (setTracker (metricsUpd st d) (d.index.getD 0)
           { tc with arguments := (toolArgStep tc.arguments pj).2 },
         [ProcessResult.chunk
            (mkToolArgsChunk (metricsUpd st d) (d.index.getD 0)
              (toolArgStep tc.arguments pj).1)]) := by
  have hspj : truthyStr (some pj) = true := by
    simp [truthyStr, hne]
  simp only [handleEvent, transformToOpenAI, htype, hpj, hspj, hth, hsig, htc,
    metricsUpd, setTracker, toolArgStep]
  by_cases hcum : ¬tc.arguments = "" ∧ strStartsWith pj tc.arguments = true <;>
    simp [hcum]

/-- C4: at `content_block_start` of a tool_use the translator emits a
tool_calls chunk with empty arguments and registers a tracker with empty
accumulated arguments; each subsequent `partial_json` delta at that index
emits the suffix beyond the accumulated arguments when the delta extends
them (equivalently stated in the claim's branch form, proved equivalent in
the third conjunct), and the concatenation of everything emitted equals the
tracker's final accumulated arguments. -/
theorem toolArgs_accumulation :
    (∀ (st : ConvCore) (d : AnthropicStreamEvent) (cb : ContentBlockPayload),
        d.type = "content_block_start" → d.content_block = some cb →
        cb.type = "tool_use" →
        (handleEvent st d).2
            = [ProcessResult.chunk
                (mkToolStartChunk (metricsUpd st d) (d.index.getD 0) cb)] ∧
        (mkToolStartChunk (metricsUpd st d) (d.index.getD 0) cb).choices
            = [⟨0, ⟨none, none,
                some [⟨d.index.getD 0, cb.id, true, ⟨cb.name, some ""⟩⟩]⟩, none⟩] ∧
        mapGet (d.index.getD 0) (handleEvent st d).1.toolCallsTracker
            = some ⟨cb.id.getD "", cb.name.getD "", ""⟩) ∧
    (∀ (st : ConvCore) (d : AnthropicStreamEvent) (pj : String)
        (tc : ToolCallTracker),
        d.type = "content_block_delta" →
        d.delta.bind (·.partial_json) = some pj → pj ≠ "" →
        truthyStr (d.delta.bind (·.thinking)) = false →
        truthyStr (d.delta.bind (·.signature)) = false →
        mapGet (d.index.getD 0) st.toolCallsTracker = some tc →
        (handleEvent st d).2
            = [ProcessResult.chunk
                (mkToolArgsChunk (metricsUpd st d) (d.index.getD 0)
                  (toolArgStep tc.arguments pj).1)] ∧
        mapGet (d.index.getD 0) (handleEvent st d).1.toolCallsTracker
            = some { tc with arguments := (toolArgStep tc.arguments pj).2 }) ∧
    (∀ acc pj : String,
        toolArgStep acc pj
          = (if strStartsWith pj acc = true then strDropN pj (strLen acc) else pj,
             if strStartsWith pj acc = true then pj else acc ++ pj)) ∧
    (∀ pjs : List String, strJoin (emitAll "" pjs) = accAll "" pjs) := by
  refine ⟨?_, ?_, ?_, ?_⟩
  · intro st d cb htype hcb hcbt
    rw [handleEvent_tool_use_start st d cb htype hcb hcbt]
    refine ⟨rfl, rfl, ?_⟩
    show mapGet (d.index.getD 0)
      (setTracker (metricsUpd st d) (d.index.getD 0)
        ⟨cb.id.getD "", cb.name.getD "", ""⟩).toolCallsTracker = _
    unfold setTracker
    exact mapGet_mapSet_self _ _ _
  · intro st d pj tc htype hpj hne hth hsig htc
    rw [handleEvent_partial_json st d pj tc htype hpj hne hth hsig htc]
    refine ⟨rfl, ?_⟩
    show mapGet (d.index.getD 0)
      (setTracker (metricsUpd st d) (d.index.getD 0)
        { tc with arguments := (toolArgStep tc.arguments pj).2 }).toolCallsTracker = _
    unfold setTracker
    exact mapGet_mapSet_self _ _ _
  · intro acc pj
    unfold toolArgStep
    by_cases hacc : acc = ""
    · subst hacc
      have hsw : strStartsWith pj "" = true := by
        simp [strStartsWith, List.isPrefixOf]
      have hemp : ("" : String) ++ pj = pj := by
        have hd : (("" : String) ++ pj).data = pj.data := by
          rw [String.data_append]
          rfl
        exact congrArg String.mk hd
      simp [hsw, hemp, show strDropN pj (strLen "") = pj from rfl]
    · by_cases hsw : strStartsWith pj acc = true
      · simp [hacc, hsw]
      · simp [hacc, hsw]
  · intro pjs
    rw [accAll_eq_join pjs ""]
    have : (("" : String) ++ strJoin (emitAll "" pjs)).data
        = (strJoin (emitAll "" pjs)).data := by
      rw [String.data_append]
      rfl
    exact (congrArg String.mk this).symm

/-- Concrete tool_use block payload for the C4 witness. -/
def cbToolW : ContentBlockPayload :=
  { type := "tool_use", id := some "tu_1", name := some "search",
    text := none, thinking := none, signature := none }

/-- Concrete tool-start event for the C4 witness. -/
def evToolStartW : AnthropicStreamEvent :=
  { type := "content_block_start", message := none,
    content_block := some cbToolW, delta := none, index := some 0,
    model := none, stop_reason := none, signature := none, usage := none }

/-- Concrete `partial_json` delta event for the C4 witness. -/
def evToolDeltaW : AnthropicStreamEvent :=
  { type := "content_block_delta", message := none, content_block := none,
    delta := some
      { text := none, partial_json := some "\x7b\"q\"", stop_reason := none,
        thinking := none, signature := none },
    index := some 0, model := none, stop_reason := none, signature := none,
    usage := none }

/-- Witness for the C4 theorem at a concrete tool-call stream. -/
theorem toolArgs_accumulation_witness :
    (handleEvent (createConverterState none).core evToolStartW).2
      = [ProcessResult.chunk
          (mkToolStartChunk (metricsUpd (createConverterState none).core
            evToolStartW) 0 cbToolW)] ∧
    (handleEvent (handleEvent (createConverterState none).core
        evToolStartW).1 evToolDeltaW).2
      = [ProcessResult.chunk
          (mkToolArgsChunk (metricsUpd (handleEvent
              (createConverterState none).core evToolStartW).1 evToolDeltaW) 0
            (toolArgStep "" "\x7b\"q\"").1)] := by
  have r1 := toolArgs_accumulation.1 (createConverterState none).core
    evToolStartW cbToolW rfl rfl rfl
  have htc : mapGet 0 (handleEvent (createConverterState none).core
      evToolStartW).1.toolCallsTracker = some ⟨"tu_1", "search", ""⟩ := r1.2.2
  have r2 := toolArgs_accumulation.2.1
    (handleEvent (createConverterState none).core evToolStartW).1
    evToolDeltaW "\x7b\"q\"" ⟨"tu_1", "search", ""⟩ rfl rfl (by decide) rfl rfl htc
  exact ⟨r1.1, r2.1⟩

/-- Witness message payload: usage counters present, `id` missing — the
payload on which the handler throws after `updateMetrics` already ran. -/
def msgW : MessagePayload :=
  { id := none, model := some "claude-sonnet-4-5",
    usage := some { input_tokens := 5, output_tokens := 1,
                    cache_creation_input_tokens := none,
                    cache_read_input_tokens := none },
    stop_reason := none }

/-- Witness event carrying that payload. -/
def badStartEvW : AnthropicStreamEvent :=
  { type := "message_start", message := some msgW, content_block := none,
    delta := none, index := none, model := none, stop_reason := none,
    signature := none, usage := none }

/-- Witness data line whose payload parses to the witness event. -/
def throwLineW : List Char := "data: \x7bTHROW\x7d".data

/-- Witness parse function: recognises exactly the witness payload. -/
def parseW : List Char → Option AnthropicStreamEvent :=
  fun cs => if cs = "\x7bTHROW\x7d".data then some badStartEvW else none

theorem processChunk_skips_bad_lines_witness :
    lineSkippable parseW "event: ping".data = true ∧
    handleLine parseW (createConverterState none).core
        "event: ping".data = ((createConverterState none).core, []) ∧
    foldLines parseW (createConverterState none).core
        (["data: \x7bbad".data] ++ "event: ping".data :: [throwLineW])
      = foldLines parseW (createConverterState none).core
          (["data: \x7bbad".data] ++ [throwLineW]) ∧
    handleLine parseW (createConverterState none).core throwLineW
      = (metricsUpd (createConverterState none).core badStartEvW, []) ∧
    (foldLines parseW (createConverterState none).core
        (["data: \x7bbad".data] ++ throwLineW :: ["event: ping".data])).2
      = (foldLines parseW (createConverterState none).core
            ["data: \x7bbad".data]).2
        ++ (foldLines parseW
              (handleLine parseW
                (foldLines parseW (createConverterState none).core
                  ["data: \x7bbad".data]).1 throwLineW).1
              ["event: ping".data]).2 ∧
    (handleEvent (createConverterState none).core
        { type := "content_block_delta", message := none, content_block := none,
          delta := none, index := none, model := none, stop_reason := none,
          signature := none, usage := none }).2 = [] := by
  have h : lineSkippable parseW "event: ping".data = true := by rfl
  have r := processChunk_skips_bad_lines parseW
    (createConverterState none).core "event: ping".data
    ["data: \x7bbad".data] [throwLineW] h
  refine ⟨h, r.1, r.2.1, ?_, ?_, r.2.2.2.2 _ _ rfl rfl⟩
  · exact r.2.2.1 _ throwLineW badStartEvW msgW rfl rfl rfl rfl rfl rfl
  · exact r.2.2.2.1 throwLineW ["data: \x7bbad".data] ["event: ping".data]
      (createConverterState none).core
      (fun st' => by
        rw [r.2.2.1 st' throwLineW badStartEvW msgW rfl rfl rfl rfl rfl rfl])
